import Mathlib

/-!
Formal model of the question-paper generator's assembly and deduplication
pipeline (files `app.py`, `one_mark.py`, `six_marks.py`, `twelve_marks.py`).
Text is modelled as `List Char`; the external generation service is modelled
as a given per-unit outcome (`Except` of an error message or a raw response);
the SHA-256 fingerprint is modelled as an abstract function parameter `fp`
applied to the normalized (stripped, lower-cased) question text, exactly as
`hash_question` composes `sha256` with `q.strip().lower()`.
-/

/-- Text is a list of characters, mirroring Python `str` for the ASCII
fragment these modules manipulate. -/
abbrev Str := List Char

/-- Python `str.strip()` whitespace class: space, tab, newline, carriage
return, vertical tab, form feed. -/
def pyIsSpace (c : Char) : Bool :=
  c == ' ' || c == '\t' || c == '\n' || c == '\r' || c == Char.ofNat 11 || c == Char.ofNat 12

/-- Python `str.strip()`: drop whitespace from both ends. -/
def stripPy (s : Str) : Str :=
  ((s.dropWhile pyIsSpace).reverse.dropWhile pyIsSpace).reverse

/-- ASCII lower-casing of one character, as Python `str.lower()` acts on the
ASCII fragment. -/
def lowCh (c : Char) : Char := if 'A' ≤ c ∧ c ≤ 'Z' then Char.ofNat (c.toNat + 32) else c

/-- ASCII upper-casing of one character, as Python `str.upper()` acts on the
ASCII fragment. -/
def upCh (c : Char) : Char := if 'a' ≤ c ∧ c ≤ 'z' then Char.ofNat (c.toNat - 32) else c

/-- Python `str.lower()`. -/
def pyLower (s : Str) : Str := s.map lowCh

/-- Python `str.upper()`. -/
def pyUpper (s : Str) : Str := s.map upCh

/-- Python `needle in hay` substring test. -/
def containsSub (needle : Str) : Str → Bool
  | [] => needle.isEmpty
  | c :: cs => needle.isPrefixOf (c :: cs) || containsSub needle cs

/-- Python `s.split(sep)` for a one-character separator. -/
def splitOnChar (sep : Char) : Str → List Str
  | [] => [[]]
  | c :: cs =>
    if c == sep then [] :: splitOnChar sep cs
    else
      match splitOnChar sep cs with
      | g :: gs => (c :: g) :: gs
      | [] => [[c]]

/-- Python `s.split("\n\n")` (blank-line chunking used by `one_mark.py`):
left-to-right, non-overlapping occurrences of two consecutive newlines. -/
def splitDoubleNl : Str → List Str
  | [] => [[]]
  | '\n' :: '\n' :: cs => [] :: splitDoubleNl cs
  | c :: cs =>
    match splitDoubleNl cs with
    | g :: gs => (c :: g) :: gs
    | [] => [[c]]

/-- Python `s.split(sep, 1)`: `none` when the separator is absent, otherwise
the text before and after its first occurrence. -/
def splitOnceChar (sep : Char) : Str → Option (Str × Str)
  | [] => none
  | c :: cs =>
    if c == sep then some ([], cs)
    else
      match splitOnceChar sep cs with
      | some (a, b) => some (c :: a, b)
      | none => none

/-- Total length of a list of strings (the running total
`sum(len(s) for s in relevant_sentences)` the extractors compare against the
character budget). -/
def sumLen : List Str → Nat
  | [] => 0
  | s :: rest => s.length + sumLen rest

/-- Head-equality test (`s.startswith('Q')` for a one-character prefix). -/
def headIs (c : Char) (l : Str) : Bool :=
  match l with
  | [] => false
  | d :: _ => d == c

/-- Unit short name: `unit.split(':')[0].strip()`, the history partition
key used by all three tiers. -/
def unitShortName (unit : Str) : Str := stripPy (unit.takeWhile (fun c => c ≠ ':'))

/-- Decimal digits of a natural number, as interpolated by f-strings. -/
def natDigits (n : Nat) : Str := Nat.toDigits 10 n

/-- Leading question marker `Q<n>.` produced by the renumbering code
(`f"Q{n}." ...`). -/
def qMarker (n : Nat) : Str := 'Q' :: (natDigits n ++ ['.'])

/-- History store of one tier: unit short name to the ordered fingerprint
list, `{}` with `.get(name, [])` defaulting to the empty list. -/
def Hist := Str → List Str

/-- Empty history store (missing history file). -/
def emptyH : Hist := fun _ => []

/-- Store update `history[name] = l`. -/
def updateH (h : Hist) (name : Str) (l : List Str) : Hist :=
  fun k => if k = name then l else h k

/-- Fingerprint of a question: the abstract hash `fp` (standing for the
SHA-256 hex digest) of `q.strip().lower()`, as in `hash_question` and its
six/twelve-mark clones. -/
def hashNorm (fp : Str → Str) (q : Str) : Str := fp (pyLower (stripPy q))

/-! ## Generation client retry contract (`retry_with_exponential_backoff`) -/

/-- Rate-limit classification of an error text, exactly as the decorator
tests it: `"429" in str(e) or "Rate limit" in str(e) or "rate limit" in str(e)`. -/
def is_rate_limit (msg : Str) : Bool :=
  containsSub ("429".data) msg || containsSub ("Rate limit".data) msg ||
    containsSub ("rate limit".data) msg

/-- Retry loop of the decorator: attempt `i` with `rem` retries left; on the
last attempt, or on an error not classified as rate limiting, the error
propagates; otherwise (after the modelled-away backoff sleep) the next
attempt runs. -/
def retryFrom {α : Type} (f : Nat → Except Str α) (i : Nat) : Nat → Except Str α
  | 0 => f i
  | rem + 1 =>
    match f i with
    | .ok a => .ok a
    | .error e => if is_rate_limit e then retryFrom f (i + 1) rem else .error e

/-- The decorator `retry_with_exponential_backoff` with `max_retries`
retries: up to `maxRetries + 1` attempts, drawn from the attempt-indexed
outcome function `f`. -/
def retry_with_exponential_backoff {α : Type} (maxRetries : Nat) (f : Nat → Except Str α) :
    Except Str α :=
  retryFrom f 0 maxRetries

/-! ## Six-mark renumbering, including the malformed-marker special case -/

/-- Matcher for `re.match(r'^Q\d+\.\d+', q)` together with the remainder
left by `re.split(r'^Q\d+\.\d+', q, 1)`: a leading `Q`, one or more digits,
a dot, one or more digits; `some rest` is the text after the matched prefix. -/
def dropMalformed (q : Str) : Option Str :=
  match q with
  | 'Q' :: rest =>
    if (rest.takeWhile Char.isDigit) = [] then none
    else
      match rest.dropWhile Char.isDigit with
      | '.' :: r2 =>
        if (r2.takeWhile Char.isDigit) = [] then none
        else some (r2.dropWhile Char.isDigit)
      | _ => none
  | _ => none

/-- Six-mark per-candidate cleanup and renumbering (`six_marks.py` lines
236-254): the malformed `Q<n>.<digits>` marker is stripped and the stripped
remainder follows `Q<new>.` directly; a well-formed candidate keeps
everything after its first dot; with no dot a bare marker is emitted. -/
def renumberSix (n : Nat) (q : Str) : Str :=
  match dropMalformed q with
  | some rest => if stripPy rest ≠ [] then qMarker n ++ stripPy rest else qMarker n
  | none =>
    match splitOnceChar '.' q with
    | some (_, post) => qMarker n ++ post
    | none => qMarker n

/-! ## Claim C5 -/

/-- Attempt outcomes for the C5 counterexample: the first attempt fails with
an upper-cased rate-limit message, later attempts would succeed. -/
def c5noise : Nat → Except Str Nat :=
  fun i => if i = 0 then Except.error ("RATE LIMIT".data) else Except.ok 7

/-- C5 counterexample. The claim says the wrapper retries exactly the errors
whose text contains "429" or, case-insensitively, "rate limit". The error
text "RATE LIMIT" contains "rate limit" case-insensitively (second conjunct),
and the attempt budget of 5 retries is not exhausted, so under the claim the
wrapper would retry and return the second attempt's `ok 7`; the code instead
propagates the error immediately (first and third conjuncts), because its
test is the case-sensitive `"429" in str(e) or "Rate limit" in str(e) or
"rate limit" in str(e)`. -/
theorem c5_counterexample :
    retry_with_exponential_backoff 5 c5noise = Except.error ("RATE LIMIT".data)
    ∧ containsSub (pyLower ("rate limit".data)) (pyLower ("RATE LIMIT".data)) = true
    ∧ ¬ retry_with_exponential_backoff 5 c5noise = Except.ok 7 :=
  ⟨rfl, rfl, fun h => Except.noConfusion h⟩

/-- C5 (amended): an error on the first attempt propagates immediately, with
no further attempts, if and only if its text fails the code's case-sensitive
test for "429", "Rate limit" or "rate limit" (`is_rate_limit`); when the test
succeeds and the retry budget is positive, the wrapper proceeds to attempt 1
with one fewer retry remaining. -/
theorem c5_amended_retry_predicate {α : Type} (m : Nat) (f : Nat → Except Str α) (e : Str)
    (h0 : f 0 = Except.error e) :
    (is_rate_limit e = false → retry_with_exponential_backoff m f = Except.error e)
    ∧ (is_rate_limit e = true → 0 < m →
        retry_with_exponential_backoff m f = retryFrom f 1 (m - 1)) := by
  constructor
  · intro hrl
    cases m with
    | zero => simpa [retry_with_exponential_backoff, retryFrom] using h0
    | succ k => simp [retry_with_exponential_backoff, retryFrom, h0, hrl]
  · intro hrl hm
    cases m with
    | zero => exact absurd hm (by simp)
    | succ k => simp [retry_with_exponential_backoff, retryFrom, h0, hrl]

/-- Attempt outcomes for the C5 witness: a genuine lower-case rate-limit
failure on the first attempt. -/
def c5fret : Nat → Except Str Nat :=
  fun i => if i = 0 then Except.error ("rate limit hit".data) else Except.ok 3

/-- C5 witness: the amended theorem evaluated on concrete attempt sequences,
one non-matching (propagates at once) and one matching (retries). -/
theorem c5_witness :
    retry_with_exponential_backoff 5 c5noise = Except.error ("RATE LIMIT".data)
    ∧ retry_with_exponential_backoff 5 c5fret = retryFrom c5fret 1 4 :=
  ⟨(c5_amended_retry_predicate 5 c5noise (("RATE LIMIT".data)) rfl).1 rfl,
   (c5_amended_retry_predicate 5 c5fret (("rate limit hit".data)) rfl).2 rfl (by decide)⟩

/-! ## Claim C7 -/

/-- C7 counterexample. On `"Q17.5017 Explain clustering."` with new number
14 the six-mark cleanup produces `"Q14.Explain clustering."`: the remainder
is stripped and concatenated directly after `Q14.` with no separating space
(`f"Q{question_counter}.{parts[1].strip()}"`), so the claimed output
`"Q14. Explain clustering."` is not produced. -/
theorem c7_counterexample :
    renumberSix 14 ("Q17.5017 Explain clustering.".data) = ("Q14.Explain clustering.".data)
    ∧ ("Q14.Explain clustering.".data) ≠ ("Q14. Explain clustering.".data) :=
  ⟨rfl, by decide⟩

/-- C7 (amended): the six-mark malformed marker `"Q17.5017 Explain
clustering."` with assigned new number 14 renumbers to
`"Q14.Explain clustering."` — the stray decimal remainder is stripped, and
the stripped body follows the new marker with no space after the period. -/
theorem c7_amended_renumber :
    renumberSix 14 ("Q17.5017 Explain clustering.".data) = ("Q14.Explain clustering.".data) :=
  rfl

/-! ## Relevance extractor (`extract_relevant_content` and its six-mark clone) -/

/-- Lower-case ASCII letter class, the `[a-z]` of the keyword regex. -/
def isLowerAl (c : Char) : Bool := decide ('a' ≤ c) && decide (c ≤ 'z')

/-- Word-character class used by the regex word boundary. -/
def isWordCh (c : Char) : Bool := c.isAlpha || c.isDigit || c == '_'

/-- Group consecutive characters by whether they satisfy `p`, preserving
order (used to locate the maximal `[a-z]` runs of the keyword regex). -/
def groupRuns (p : Char → Bool) : Str → List Str
  | [] => []
  | c :: cs =>
    match groupRuns p cs with
    | [] => [[c]]
    | (d :: g) :: gs => if p c == p d then (c :: d :: g) :: gs else [c] :: (d :: g) :: gs
    | [] :: gs => [c] :: gs

/-- Word-character test on an optional neighbouring character (absent
neighbours are non-word, matching the regex boundary at text ends). -/
def wordOpt : Option Char → Bool
  | none => false
  | some c => isWordCh c

/-- Keep the groups that match `\b[a-z]{4,}\b`: a lower-alpha run of length
at least 4 whose neighbouring characters, when present, are not word
characters. `prev` is the character just before the current group. -/
def pickTokens : Option Char → List Str → List Str
  | _, [] => []
  | prev, g :: rest =>
    let nxt : Option Char :=
      match rest with
      | [] => none
      | h :: _ => h.head?
    let keep :=
      match g with
      | c :: _ => isLowerAl c && decide (4 ≤ g.length) && !(wordOpt prev) && !(wordOpt nxt)
      | [] => false
    (if keep then [g] else []) ++ pickTokens g.getLast? rest

/-- All matches of `re.findall(r'\b[a-z]{4,}\b', s)` in order. -/
def findWords (s : Str) : List Str := pickTokens none (groupRuns isLowerAl s)

/-- Stop-word set of `extract_relevant_content` in `one_mark.py`. -/
def oneCommon : List Str :=
  [("the".data), ("and".data), ("for".data), ("with".data), ("this".data), ("that".data),
   ("from".data), ("have".data), ("has".data), ("are".data), ("was".data), ("were".data)]

/-- Stop-word set of `extract_relevant_content_six_marks`. -/
def sixCommon : List Str :=
  [("with".data), ("this".data), ("that".data), ("from".data), ("have".data), ("has".data),
   ("are".data), ("was".data), ("were".data), ("learning".data), ("machine".data)]

/-- Python `s.replace('unit ', '')`: remove every occurrence, scanning left
to right. -/
def dropUnitSpace : Str → Str
  | [] => []
  | 'u' :: 'n' :: 'i' :: 't' :: ' ' :: rest => dropUnitSpace rest
  | c :: rest => c :: dropUnitSpace rest

/-- Keyword derivation shared by the extractors: tokens of the lower-cased
unit description minus stop words, truncated to `cnt`, then the unit short
name with the leading "unit " stripped. The `if not keywords` fallback of
the source is unreachable (the appended short-name keyword always leaves the
list non-empty) and is omitted. -/
def unitKeywords (common : List Str) (cnt : Nat) (unit : Str) : List Str :=
  let unitLines := splitOnChar '\n' unit
  let firstLine := stripPy (unitLines.headD [])
  let unitName := pyUpper (stripPy (firstLine.takeWhile (fun c => c ≠ ':')))
  let description := pyLower (List.intercalate ([' ']) unitLines)
  let kws := ((findWords description).filter (fun w => w ∉ common)).take cnt
  kws ++ [dropUnitSpace (pyLower unitName)]

/-- Keywords of the one-mark extractor (stop words `oneCommon`, first 10). -/
def oneMarkKeywords (unit : Str) : List Str := unitKeywords oneCommon 10 unit

/-- Keywords of the six-mark extractor (stop words `sixCommon`, first 8). -/
def sixMarkKeywords (unit : Str) : List Str := unitKeywords sixCommon 8 unit

/-- Sentence relevance test:
`any(keyword.lower() in sentence_lower for keyword in keywords)`. -/
def matchesAnyKeyword (kws : List Str) (sentence : Str) : Bool :=
  kws.any (fun k => containsSub (pyLower k) (pyLower sentence))

/-- Sentence-keeping loop shared by the extractors: walk sentences in order,
append the stripped sentence when it matches a keyword, then stop as soon as
the running total of kept lengths exceeds the budget. -/
def relevantLoop (kws : List Str) (maxChars : Nat) : List Str → List Str → List Str
  | [], acc => acc
  | s :: rest, acc =>
    let acc' := if matchesAnyKeyword kws s then acc ++ [stripPy s] else acc
    if maxChars < sumLen acc' then acc' else relevantLoop kws maxChars rest acc'

/-- The one-mark relevance extractor `extract_relevant_content`. -/
def extract_relevant_content (fullText unit : Str) (maxChars : Nat) : Str :=
  let kept := relevantLoop (oneMarkKeywords unit) maxChars (splitOnChar '.' fullText) []
  if kept = [] then fullText.take 3000
  else (List.intercalate (". ".data) kept).take maxChars

/-- The six-mark relevance extractor `extract_relevant_content_six_marks`. -/
def extract_relevant_content_six_marks (fullText unit : Str) (maxChars : Nat) : Str :=
  let kept := relevantLoop (sixMarkKeywords unit) maxChars (splitOnChar '.' fullText) []
  if kept = [] then fullText.take 3000
  else (List.intercalate (". ".data) kept).take maxChars

theorem sumLen_dropLast_le : ∀ l : List Str, sumLen l.dropLast ≤ sumLen l := by
  intro l
  induction l with
  | nil => simp [sumLen]
  | cons x xs ih =>
    cases xs with
    | nil => simp [sumLen, List.dropLast]
    | cons y ys =>
      simp only [List.dropLast_cons₂, sumLen] at ih ⊢
      omega

theorem relevantLoop_split (kws : List Str) (m : Nat) :
    ∀ (ss acc : List Str), ∃ t, relevantLoop kws m ss acc = acc ++ t ∧
      t <+: ((ss.filter (fun s => matchesAnyKeyword kws s)).map stripPy) := by
  intro ss
  induction ss with
  | nil => intro acc; exact ⟨[], by simp [relevantLoop]⟩
  | cons s rest ih =>
    intro acc
    by_cases hm : matchesAnyKeyword kws s = true
    · by_cases hb : m < sumLen (acc ++ [stripPy s])
      · refine ⟨[stripPy s], ?_, ?_⟩
        · simp [relevantLoop, hm, hb]
        · exact ⟨(rest.filter (fun x => matchesAnyKeyword kws x)).map stripPy, by simp [hm]⟩
      · obtain ⟨t, ht, hpre⟩ := ih (acc ++ [stripPy s])
        refine ⟨stripPy s :: t, ?_, ?_⟩
        · simp only [relevantLoop, hm, if_true, hb, if_false]
          simpa using ht
        · obtain ⟨w, hw⟩ := hpre
          exact ⟨w, by simp [hm, ← hw]⟩
    · replace hm : matchesAnyKeyword kws s = false := by
        cases h : matchesAnyKeyword kws s
        · rfl
        · exact absurd h hm
      by_cases hb : m < sumLen acc
      · exact ⟨[], by simp [relevantLoop, hm, hb], by simp⟩
      · obtain ⟨t, ht, hpre⟩ := ih acc
        refine ⟨t, ?_, ?_⟩
        · have hstep : relevantLoop kws m (s :: rest) acc = relevantLoop kws m rest acc := by
            simp [relevantLoop, hm, hb]
          rw [hstep]
          exact ht
        · simpa [hm] using hpre

theorem relevantLoop_budget (kws : List Str) (m : Nat) :
    ∀ (ss acc : List Str), sumLen acc ≤ m →
      sumLen (relevantLoop kws m ss acc).dropLast ≤ m := by
  intro ss
  induction ss with
  | nil =>
    intro acc hacc
    exact le_trans (sumLen_dropLast_le acc) hacc
  | cons s rest ih =>
    intro acc hacc
    by_cases hm : matchesAnyKeyword kws s = true
    · by_cases hb : m < sumLen (acc ++ [stripPy s])
      · simp only [relevantLoop, hm, if_true, hb, if_true]
        simpa [List.dropLast_concat] using hacc
      · simp only [relevantLoop, hm, if_true, hb, if_false]
        exact ih _ (le_of_not_lt hb)
    · replace hm : matchesAnyKeyword kws s = false := by
        cases h : matchesAnyKeyword kws s
        · rfl
        · exact absurd h hm
      have hb : ¬ m < sumLen acc := not_lt_of_le hacc
      have hstep : relevantLoop kws m (s :: rest) acc = relevantLoop kws m rest acc := by
        simp [relevantLoop, hm, hb]
      rw [hstep]
      exact ih _ hacc

/-- C4 (amended): the sentence-keeping loop of both relevance extractors
keeps matching sentences in order (the kept list is a prefix of the
stripped matching sentences), but it appends before checking the budget:
only the kept list *without its last element* is guaranteed to fit the
character budget — the sentence whose length crosses the boundary IS
included as the final kept sentence, and the loop stops after it. -/
theorem c4_amended_append_then_check (kws : List Str) (maxChars : Nat) (sentences : List Str) :
    (relevantLoop kws maxChars sentences [] <+:
      ((sentences.filter (fun s => matchesAnyKeyword kws s)).map stripPy))
    ∧ sumLen (relevantLoop kws maxChars sentences []).dropLast ≤ maxChars := by
  constructor
  · obtain ⟨t, ht, hpre⟩ := relevantLoop_split kws maxChars sentences []
    simpa [ht] using hpre
  · exact relevantLoop_budget kws maxChars sentences [] (by simp [sumLen])

/-- C4 counterexample. With keywords derived from the unit descriptor
`"UNIT I: clustering"`, reference text `"clustering works"` (one matching
sentence of length 16) and character budget 10, the loop appends the
sentence and only then notices the budget is exceeded: the kept set is the
boundary-crossing sentence itself, with total length 16 > 10, refuting the
claimed check-before-append behaviour under which the crossing sentence
would not be kept. -/
theorem c4_counterexample :
    relevantLoop (oneMarkKeywords ("UNIT I: clustering".data)) 10
        (splitOnChar '.' ("clustering works".data)) [] = [("clustering works".data)]
    ∧ 10 < sumLen [("clustering works".data)] :=
  ⟨rfl, by decide⟩

/-! ## Unit segmenter (syllabus splitting loop of `app.py`) -/

/-- Roman-numeral character class `[IVXLCDM]`. -/
def isRomanCh (c : Char) : Bool :=
  c == 'I' || c == 'V' || c == 'X' || c == 'L' || c == 'C' || c == 'D' || c == 'M'

/-- Character class `[IVXLCDM1-9]` of the fallback unit pattern. -/
def isRomanOr19 (c : Char) : Bool := isRomanCh c || (decide ('1' ≤ c) && decide (c ≤ '9'))

/-- Test whether `p` matches at some position of the line (`re.search`). -/
def existsSuffix (p : Str → Bool) : Str → Bool
  | [] => p []
  | c :: cs => p (c :: cs) || existsSuffix p cs

/-- Match of `UNIT\s+<cls>+` anchored at the start of `l`: the literal
`UNIT`, one or more whitespace characters, then at least one character of
class `cls`. -/
def unitClassAt (cls : Char → Bool) (l : Str) : Bool :=
  ("UNIT".data).isPrefixOf l &&
    (let r := l.drop 4
     !(r.takeWhile pyIsSpace).isEmpty &&
       (match r.dropWhile pyIsSpace with
        | c :: _ => cls c
        | [] => false))

/-- Match of `UNIT.*[IVXLCDM1-9]` anchored at the start of `l`. -/
def unitAnyAt (l : Str) : Bool :=
  ("UNIT".data).isPrefixOf l && (l.drop 4).any isRomanOr19

/-- Unit-boundary detection of `app.py`: on the upper-cased line, search for
`UNIT\s+[IVXLCDM]+` or `UNIT\s+\d+`, falling back to `"UNIT" in line_upper`
combined with `UNIT.*[IVXLCDM1-9]`. The `Unit ...` spellings of the source's
pattern list can never match an upper-cased line and contribute nothing. -/
def isUnitLine (line : Str) : Bool :=
  let up := pyUpper line
  existsSuffix (unitClassAt isRomanCh) up || existsSuffix (unitClassAt Char.isDigit) up ||
    (containsSub ("UNIT".data) up && existsSuffix unitAnyAt up)

/-- Match of the hour-annotation filter
`re.search(r"^\d+\s*(Hrs|Hours|hrs|hours)$", line.strip())`: one or more
digits, optional whitespace, then exactly one of the four case-sensitive
spellings. -/
def isHourLine (s : Str) : Bool :=
  let r := (s.dropWhile Char.isDigit).dropWhile pyIsSpace
  !(s.takeWhile Char.isDigit).isEmpty &&
    (r == ("Hrs".data) || r == ("Hours".data) || r == ("hrs".data) || r == ("hours".data))

/-- State of the syllabus scanning loop: closed units and the accumulating
current unit (`""` when no unit is open). -/
structure SegSt where
  units : List Str
  current : Str
deriving DecidableEq

/-- One line of the syllabus scanning loop of `app.py`: a boundary line
closes the current unit and opens a new one; otherwise, while a unit is
accumulating, a non-blank line is dropped when it is only an hour
annotation and appended with a single separating space otherwise. -/
def segStep (st : SegSt) (line : Str) : SegSt :=
  if isUnitLine line then
    ⟨st.units ++ (if st.current ≠ [] then [stripPy st.current] else []), stripPy line⟩
  else if st.current ≠ [] ∧ stripPy line ≠ [] then
    if isHourLine (stripPy line) then st
    else ⟨st.units, st.current ++ ' ' :: stripPy line⟩
  else st

/-- The syllabus scanning loop over all lines, from the empty state. -/
def segmentLoop (lines : List Str) : SegSt := lines.foldl segStep ⟨[], []⟩

/-- Contribution of one non-boundary line to the accumulating unit: nothing
for blank lines and hour-annotation lines, the stripped line otherwise. -/
def keepLine (l : Str) : Option Str :=
  if stripPy l = [] then none
  else if isHourLine (stripPy l) then none
  else some (stripPy l)

/-- Concatenated contributions of a run of non-boundary lines, each kept
line preceded by its single separating space. -/
def appendedTail (rest : List Str) : Str :=
  ((rest.filterMap keepLine).map (fun s => ' ' :: s)).flatten

/-- C8 (amended): while a unit is accumulating, a run of non-boundary lines
leaves the closed units untouched and extends the current unit with exactly
the non-blank lines that are not hour annotations in the *case-sensitive*
sense of `isHourLine` (`Hrs`, `Hours`, `hrs`, `hours` only), each appended
with a single separating space; spellings such as `"9 HRS"` fail the filter
and are appended like ordinary content lines. -/
theorem c8_amended_hour_filter (us : List Str) (cur : Str) (rest : List Str)
    (hcur : cur ≠ []) (hnb : ∀ l ∈ rest, isUnitLine l = false) :
    List.foldl segStep ⟨us, cur⟩ rest = ⟨us, cur ++ appendedTail rest⟩ := by
  induction rest generalizing cur with
  | nil => simp [appendedTail]
  | cons l rest ih =>
    have hl : isUnitLine l = false := hnb l (by simp)
    have hnb' : ∀ x ∈ rest, isUnitLine x = false := fun x hx => hnb x (by simp [hx])
    by_cases hblank : stripPy l = []
    · have hstep : segStep ⟨us, cur⟩ l = ⟨us, cur⟩ := by
        simp [segStep, hl, hblank]
      have htail : appendedTail (l :: rest) = appendedTail rest := by
        simp [appendedTail, keepLine, hblank]
      rw [List.foldl_cons, hstep, htail]
      exact ih cur hcur hnb'
    · by_cases hhr : isHourLine (stripPy l) = true
      · have hstep : segStep ⟨us, cur⟩ l = ⟨us, cur⟩ := by
          simp [segStep, hl, hcur, hblank, hhr]
        have htail : appendedTail (l :: rest) = appendedTail rest := by
          simp [appendedTail, keepLine, hblank, hhr]
        rw [List.foldl_cons, hstep, htail]
        exact ih cur hcur hnb'
      · replace hhr : isHourLine (stripPy l) = false := by
          cases h : isHourLine (stripPy l)
          · rfl
          · exact absurd h hhr
        have hstep : segStep ⟨us, cur⟩ l = ⟨us, cur ++ ' ' :: stripPy l⟩ := by
          simp [segStep, hl, hcur, hblank, hhr]
        have htail : appendedTail (l :: rest) = (' ' :: stripPy l) ++ appendedTail rest := by
          simp [appendedTail, keepLine, hblank, hhr]
        rw [List.foldl_cons, hstep, htail]
        have := ih (cur ++ ' ' :: stripPy l) (by simp) hnb'
        rw [this]
        simp

/-- C8 counterexample. Processing the lines `"UNIT I: A"`, `"x"`, `"9 HRS"`
the loop appends `"9 HRS"` to the current unit, although the claim requires
the hour filter to match case-insensitively and drop it: `"9 HRS"` fails the
code's case-sensitive test (third conjunct) while its lower-cased form
passes it (second conjunct). -/
theorem c8_counterexample :
    (segmentLoop [("UNIT I: A".data), ("x".data), ("9 HRS".data)]).current
      = ("UNIT I: A x 9 HRS".data)
    ∧ isHourLine (pyLower ("9 HRS".data)) = true
    ∧ isHourLine ("9 HRS".data) = false :=
  ⟨rfl, rfl, rfl⟩

/-- C8 witness: the amended theorem evaluated on a concrete accumulating
unit, where the case-sensitively spelled `"9 Hrs"` line is dropped. -/
theorem c8_witness :
    List.foldl segStep ⟨[], ("UNIT I: A".data)⟩ [("x".data), ("9 Hrs".data)]
      = ⟨[], ("UNIT I: A x".data)⟩ :=
  (c8_amended_hour_filter [] (("UNIT I: A".data)) [("x".data), ("9 Hrs".data)]
    (by decide) (by decide)).trans rfl

/-! ## One-mark generator (`generate_one_mark_questions`) and its caller loop -/

/-- State of the one-mark candidate acceptance loop: accepted chunks
(`final_questions`), their fingerprints (`new_hashes`), and the unit's
history list (`unit_history`, mutated by appending). -/
structure Acc1St where
  finals : List Str
  newHs : List Str
  uh : List Str

/-- One-mark candidate acceptance: a chunk counts when it is non-blank and
has a `Q` within its first 10 characters; a fingerprint already in the
unit's history is discarded, a fresh one is accepted and appended to the
history; after every chunk the loop stops once exactly `n` chunks are
accepted. -/
def oneMarkAccept (fp : Str → Str) (n : Nat) : List Str → Acc1St → Acc1St
  | [], st => st
  | q :: rest, st =>
    let st' :=
      if stripPy q ≠ [] ∧ 'Q' ∈ q.take 10 then
        if hashNorm fp q ∈ st.uh then st
        else ⟨st.finals ++ [q], st.newHs ++ [hashNorm fp q], st.uh ++ [hashNorm fp q]⟩
      else st
    if st'.finals.length = n then st' else oneMarkAccept fp n rest st'

/-- One line of the one-mark renumbering: a line whose stripped form starts
with `Q` is rebuilt as `Q<i>.` followed by everything after the line's
first dot (or a bare marker when the line has no dot); other lines pass
through unchanged. -/
def renumLine (i : Nat) (line : Str) : Str :=
  if headIs 'Q' (stripPy line) then
    match splitOnceChar '.' line with
    | some (_, post) => qMarker i ++ post
    | none => qMarker i
  else line

/-- Renumber one accepted chunk: every `Q`-line receives the same new
number `i`, the chunk's lines are rejoined with newlines. -/
def renumberChunk (i : Nat) (q : Str) : Str :=
  List.intercalate ['\n'] ((splitOnChar '\n' q).map (renumLine i))

/-- Assemble the one-mark result text: chunks renumbered from `start` in
acceptance order, each followed by a blank line, the whole stripped. -/
def renumberAll (start : Nat) (finals : List Str) : Str :=
  stripPy ((finals.enum.map (fun p => renumberChunk (start + p.1) p.2 ++ ("\n\n".data))).flatten)

/-- The in-band underflow message
`f"No new questions generated for {unit}. All were duplicates."`. -/
def noNewStr (unit : Str) : Str :=
  ("No new questions generated for ".data) ++ unit ++ (". All were duplicates.".data)

/-- Exception wrapping of the one-mark generator:
`f"Error generating questions for {unit_name}: {str(e)}"`. -/
def oneWrap (name e : Str) : Str :=
  ("Error generating questions for ".data) ++ name ++ (": ".data) ++ e

/-- Observable outcome of one generator call: the history store after the
call, the accepted `(unit short name, fingerprint)` pairs, and either the
returned text or the raised error message. -/
structure OneOut where
  hist : Hist
  accepted : List (Str × Str)
  result : Except Str Str

/-- The one-mark generator `generate_one_mark_questions`, with the API call
(including its retry wrapper) abstracted as the outcome `api`; the prompt
construction, seed, difficulty and pacing sleep have no observable effect
and are omitted. An exception is wrapped and re-raised; the history store is
saved only when at least one question was accepted; zero surviving
candidates yield the in-band `noNewStr` text on the success channel. -/
def generate_one_mark_questions (fp : Str → Str) (hist : Hist) (unit : Str) (n : Nat)
    (start : Nat) (api : Except Str Str) : OneOut :=
  let name := unitShortName unit
  match api with
  | .error e => ⟨hist, [], .error (oneWrap name e)⟩
  | .ok raw =>
    let a := oneMarkAccept fp n (splitDoubleNl (stripPy raw)) ⟨[], [], hist name⟩
    let hist' := if a.finals ≠ [] then updateH hist name a.uh else hist
    if a.finals = [] then ⟨hist', [], .ok (noNewStr unit)⟩
    else ⟨hist', a.newHs.map (fun g => (name, g)), .ok (renumberAll start a.finals)⟩

/-- One fallback MCQ block of the caller's per-unit exception handler,
numbered `c`. -/
def oneFallbackBlock (c : Nat) : Str :=
  ('Q' :: natDigits c) ++
    (". [Question generation failed - please try again]\nA. Option A\nB. Option B\nC. Option C\nD. Option D\n\n".data)

/-- The caller's fallback text for a unit whose generation raised:
`f"**{unit}**\n\n"` followed by `n` fallback blocks numbered from `c`. -/
def fallbackText (unit : Str) (n c : Nat) : Str :=
  ("**".data) ++ unit ++ ("**\n\n".data) ++
    ((List.range n).map (fun j => oneFallbackBlock (c + j))).flatten

/-- State of the one-mark generation loop in `app.py`: history store,
collected `(unit, questions)` entries, the global question counter, and the
accepted pairs of all calls so far (for bookkeeping). -/
structure AppSt where
  hist : Hist
  entries : List (Str × Str)
  counter : Nat
  accepted : List (Str × Str)

/-- One unit of the `app.py` one-mark loop: on success the result is kept
and the counter advanced by `n` unless the text contains
`"No new questions"`; on an exception the fallback text is substituted and
the counter advances by `n` through the fallback blocks. -/
def oneMarkLoopStep (fp : Str → Str) (n : Nat) (st : AppSt) (inp : Str × Except Str Str) :
    AppSt :=
  let o := generate_one_mark_questions fp st.hist inp.1 n st.counter inp.2
  match o.result with
  | .ok qs =>
    if containsSub ("No new questions".data) qs then
      ⟨o.hist, st.entries, st.counter, st.accepted ++ o.accepted⟩
    else ⟨o.hist, st.entries ++ [(inp.1, qs)], st.counter + n, st.accepted ++ o.accepted⟩
  | .error _ =>
    ⟨st.hist, st.entries ++ [(inp.1, fallbackText inp.1 n st.counter)], st.counter + n,
      st.accepted⟩

/-- The `app.py` one-mark generation loop over all units, with
`question_counter` starting at 1. -/
def oneMarkLoop (fp : Str → Str) (n : Nat) (h : Hist) (inputs : List (Str × Except Str Str)) :
    AppSt :=
  inputs.foldl (oneMarkLoopStep fp n) ⟨h, [], 1, []⟩

theorem oneMarkLoopStep_counter (fp : Str → Str) (n : Nat) (st : AppSt)
    (inp : Str × Except Str Str) :
    ((oneMarkLoopStep fp n st inp).counter = st.counter
      ∧ (oneMarkLoopStep fp n st inp).entries = st.entries)
    ∨ ((oneMarkLoopStep fp n st inp).counter = st.counter + n
      ∧ (oneMarkLoopStep fp n st inp).entries.length = st.entries.length + 1) := by
  unfold oneMarkLoopStep
  cases h : (generate_one_mark_questions fp st.hist inp.1 n st.counter inp.2).result with
  | ok qs =>
    by_cases hc : containsSub ("No new questions".data) qs = true
    · left
      simp [h, hc]
    · right
      replace hc : containsSub ("No new questions".data) qs = false := by
        cases hq : containsSub ("No new questions".data) qs
        · rfl
        · exact absurd hq hc
      simp [h, hc]
  | error e =>
    right
    simp [h]

theorem oneMarkFold_counter (fp : Str → Str) (n : Nat) :
    ∀ (inputs : List (Str × Except Str Str)) (st : AppSt) (k : Nat),
      st.counter = k + n * st.entries.length →
      (inputs.foldl (oneMarkLoopStep fp n) st).counter
        = k + n * (inputs.foldl (oneMarkLoopStep fp n) st).entries.length := by
  intro inputs
  induction inputs with
  | nil => intro st k hk; simpa using hk
  | cons i is ih =>
    intro st k hk
    rw [List.foldl_cons]
    apply ih
    rcases oneMarkLoopStep_counter fp n st i with ⟨hc, he⟩ | ⟨hc, he⟩
    · rw [hc, he]; exact hk
    · rw [hc, he, hk]; ring

/-- C9 (amended): the global one-mark counter starts at 1 and after each
unit advances by `questions_per_unit` exactly when the unit contributed an
entry to the output — successful results not containing
`"No new questions"` and exception fallbacks both advance it, while
underflow results leave it unchanged. In particular a unit whose generation
raises advances the counter by the full quota even though it yields no
accepted question. -/
theorem c9_amended_counter (fp : Str → Str) (n : Nat) (h : Hist)
    (inputs : List (Str × Except Str Str)) :
    (oneMarkLoop fp n h inputs).counter = 1 + n * (oneMarkLoop fp n h inputs).entries.length :=
  oneMarkFold_counter fp n inputs ⟨h, [], 1, []⟩ 1 (by simp)

/-- C9 counterexample. With quota 2, a single unit whose generation raises
yields no accepted question, yet the counter advances from 1 to 3 through
the fallback blocks, contradicting the claim that a unit yielding no
accepted question leaves the counter unchanged. -/
theorem c9_counterexample :
    (oneMarkLoop (fun s => s) 2 emptyH [(("U1: a".data), Except.error ("x".data))]).counter = 3
    ∧ (oneMarkLoop (fun s => s) 2 emptyH [(("U1: a".data), Except.error ("x".data))]).accepted
        = [] :=
  ⟨rfl, rfl⟩

/-! ## Claim C10 -/

/-- Raw response whose single candidate's fingerprint is seeded into the
history, forcing deduplication underflow. -/
def c10dupRaw : Str := ("Q1. Dup?\nA. a\nB. b\nC. c\nD. d".data)

/-- History store already containing the normalized fingerprint of
`c10dupRaw`'s only candidate for unit short name `U1` (the abstract hash is
instantiated with the identity). -/
def c10hist : Hist := updateH emptyH ("U1".data) [pyLower (stripPy c10dupRaw)]

/-- Raw response whose accepted question text happens to contain the phrase
`"No new questions"`. -/
def c10collRaw : Str :=
  ("Q1. Why say No new questions here?\nA. a\nB. b\nC. c\nD. d".data)

/-- The `app.py` one-mark loop run on the colliding response. -/
def c10run : AppSt :=
  oneMarkLoop (fun s => s) 1 emptyH [(("U1: a".data), Except.ok c10collRaw)]

/-- C10: deduplication underflow is signalled in-band. When all candidates
are duplicates the generator returns the plain string
`"No new questions generated for U1: a. All were duplicates."` on the
success channel (first conjunct); the caller classifies results by the
substring `"No new questions"`, so a *successful* result whose question
text merely contains that phrase (second and third conjuncts) is discarded
— no entry is kept and the counter does not advance — even though the unit
accepted a question into its history (last three conjuncts). -/
theorem c10_in_band_underflow :
    (generate_one_mark_questions (fun s => s) c10hist ("U1: a".data) 1 1
        (Except.ok c10dupRaw)).result
      = Except.ok ("No new questions generated for U1: a. All were duplicates.".data)
    ∧ (generate_one_mark_questions (fun s => s) emptyH ("U1: a".data) 1 1
        (Except.ok c10collRaw)).result = Except.ok c10collRaw
    ∧ containsSub ("No new questions".data) c10collRaw = true
    ∧ c10run.entries = [] ∧ c10run.counter = 1 ∧ c10run.accepted.length = 1 :=
  ⟨rfl, rfl, rfl, rfl, rfl, rfl⟩

/-! ## Six- and twelve-mark orchestrators -/

/-- Line-walking question parser shared by the six- and twelve-mark paths: a
line whose stripped form starts with `Q` flushes the current accumulator
and starts a new one; any other line is appended (stripped, space-joined)
to an open accumulator and dropped otherwise; the final accumulator is
flushed stripped. -/
def parseQGo : List Str → Str → List Str
  | [], cur => if cur ≠ [] then [stripPy cur] else []
  | l :: ls, cur =>
    if headIs 'Q' (stripPy l) then
      (if cur ≠ [] then [stripPy cur] else []) ++ parseQGo ls (stripPy l)
    else if cur ≠ [] then parseQGo ls (cur ++ ' ' :: stripPy l)
    else parseQGo ls cur

/-- Parse a raw response into candidate questions (six/twelve-mark tiers). -/
def parseQLines (raw : Str) : List Str :=
  parseQGo (splitOnChar '\n' (stripPy raw)) []

/-- State of the six-mark candidate acceptance loop: the global
`all_questions` list, the global `question_counter`, the unit's history
list, and the fingerprints newly appended during this unit. -/
structure AccSt where
  allQs : List Str
  ctr : Nat
  uh : List Str
  newHs : List Str

/-- Six-mark candidate acceptance (`six_marks.py` lines 232-264): each
candidate starting with `Q` is cleaned/renumbered with the current counter,
fingerprinted, and accepted when fresh; after an acceptance the loop breaks
when the cumulative quota `cum` equals `len(all_questions) - 11` — a
comparison that is negative until eleven questions exist, so the intended
per-unit quota stop almost never fires. -/
def sixAccept (fp : Str → Str) (cum : Nat) : List Str → AccSt → AccSt
  | [], st => st
  | q :: rest, st =>
    if q ≠ [] ∧ headIs 'Q' q = true then
      if hashNorm fp (renumberSix st.ctr q) ∈ st.uh then sixAccept fp cum rest st
      else
        let st' : AccSt :=
          ⟨st.allQs ++ [renumberSix st.ctr q], st.ctr + 1,
            st.uh ++ [hashNorm fp (renumberSix st.ctr q)],
            st.newHs ++ [hashNorm fp (renumberSix st.ctr q)]⟩
        if (cum : Int) = (st'.allQs.length : Int) - 11 then st'
        else sixAccept fp cum rest st'
    else sixAccept fp cum rest st

/-- Per-tier orchestrator state threaded across units: global question
list, global counter, history store, and accepted pairs. -/
structure TierSt where
  allQs : List Str
  ctr : Nat
  hist : Hist
  accepted : List (Str × Str)

/-- Observable outcome of a six/twelve-mark orchestrator run: the history
store after the run, the accepted `(unit short name, fingerprint)` pairs,
and either the final record list or the raised error message. -/
structure TierOut where
  hist : Hist
  accepted : List (Str × Str)
  result : Except Str (List Str)

/-- Exception wrapping of the six-mark orchestrator:
`f"Error generating six-mark questions for {unit_name}: {str(e)}"`. -/
def sixWrap (name e : Str) : Str :=
  ("Error generating six-mark questions for ".data) ++ name ++ (": ".data) ++ e

/-- Exception wrapping of the twelve-mark orchestrator. -/
def twelveWrap (name e : Str) : Str :=
  ("Error generating twelve-mark questions for ".data) ++ name ++ (": ".data) ++ e

/-- The six-mark `(unit_index, questions_count)` distribution. -/
def sixDistribution : List (Nat × Nat) := [(0, 2), (1, 2), (2, 2), (3, 1), (4, 1)]

/-- Six-mark loop over the distribution entries: out-of-range unit indices
are skipped, an API failure aborts the whole tier with the wrapped message
(the per-unit `except` clauses re-raise), a successful response is parsed,
filtered against the unit's history, and the history store is saved before
the next unit. `cum` accumulates the quota sum of the processed entries
(`distribution[:unit_idx+1]`). -/
def sixFoldUnits (fp : Str → Str) (units : List Str) (api : Nat → Except Str Str) :
    List (Nat × Nat) → Nat → TierSt → TierSt × Option Str
  | [], _, st => (st, none)
  | (uidx, cnt) :: rest, cum, st =>
    if h : uidx < units.length then
      let name := unitShortName (units.get ⟨uidx, h⟩)
      match api uidx with
      | .error e => (st, some (sixWrap name e))
      | .ok raw =>
        let a := sixAccept fp (cum + cnt) (parseQLines raw) ⟨st.allQs, st.ctr, st.hist name, []⟩
        sixFoldUnits fp units api rest (cum + cnt)
          ⟨a.allQs, a.ctr, updateH st.hist name a.uh,
            st.accepted ++ a.newHs.map (fun g => (name, g))⟩
    else sixFoldUnits fp units api rest (cum + cnt) st

/-- Six-mark synthetic fallback question numbered `i`. -/
def sixFallbackQ (i : Nat) : Str :=
  ('Q' :: natDigits i) ++
    (". Explain the key concepts covered in this unit with suitable examples.".data)

/-- The six-mark orchestrator `generate_six_mark_questions`, at the level of
its question-record list: counter starts at 11; after all units, fewer than
8 records are padded with fallback questions continuing the numbering, and
the list is truncated to exactly 8. -/
def sixMarkRecords (fp : Str → Str) (hist : Hist) (units : List Str)
    (api : Nat → Except Str Str) : TierOut :=
  match sixFoldUnits fp units api sixDistribution 0 ⟨[], 11, hist, []⟩ with
  | (st, some e) => ⟨st.hist, st.accepted, .error e⟩
  | (st, none) =>
    let final :=
      if st.allQs.length < 8 then
        st.allQs ++ (List.range (8 - st.allQs.length)).map (fun j => sixFallbackQ (st.ctr + j))
      else st.allQs
    ⟨st.hist, st.accepted, .ok (final.take 8)⟩

/-- The six-mark orchestrator's returned text:
`"\n\n".join(all_questions[:8])`. -/
def generate_six_mark_questions (fp : Str → Str) (hist : Hist) (units : List Str)
    (api : Nat → Except Str Str) : Except Str Str :=
  (sixMarkRecords fp hist units api).result.map (List.intercalate ("\n\n".data))

/-- Twelve-mark renumbering of an accepted candidate: `Q<n>.` followed by
everything after the candidate's first dot. -/
def renumberTwelve (n : Nat) (q : Str) : Str :=
  match splitOnceChar '.' q with
  | some (_, post) => qMarker n ++ post
  | none => qMarker n

/-- State of the twelve-mark candidate acceptance loop: `questions_added`
for the per-unit cap of 2, plus the same components as the six-mark loop. -/
structure Acc12St where
  added : Nat
  allQs : List Str
  ctr : Nat
  uh : List Str
  newHs : List Str

/-- Twelve-mark candidate acceptance (`twelve_marks.py` lines 221-236):
candidates starting with `Q` are fingerprinted on their *original* text,
accepted when fresh, renumbered, and capped at 2 per unit via
`questions_added`. -/
def twelveAccept (fp : Str → Str) : List Str → Acc12St → Acc12St
  | [], st => st
  | q :: rest, st =>
    if q ≠ [] ∧ headIs 'Q' q = true ∧ st.added < 2 then
      if hashNorm fp q ∈ st.uh then twelveAccept fp rest st
      else
        twelveAccept fp rest
          ⟨st.added + 1, st.allQs ++ [renumberTwelve st.ctr q], st.ctr + 1,
            st.uh ++ [hashNorm fp q], st.newHs ++ [hashNorm fp q]⟩
    else twelveAccept fp rest st

/-- Twelve-mark loop over all units in order (`enumerate(units)`): an API
failure aborts the whole tier with the wrapped message; a successful
response is parsed, deduplicated, renumbered, and the history saved. -/
def twelveFoldUnits (fp : Str → Str) (api : Nat → Except Str Str) :
    List Str → Nat → TierSt → TierSt × Option Str
  | [], _, st => (st, none)
  | unit :: rest, idx, st =>
    let name := unitShortName unit
    match api idx with
    | .error e => (st, some (twelveWrap name e))
    | .ok raw =>
      let a := twelveAccept fp (parseQLines raw) ⟨0, st.allQs, st.ctr, st.hist name, []⟩
      twelveFoldUnits fp api rest (idx + 1)
        ⟨a.allQs, a.ctr, updateH st.hist name a.uh,
          st.accepted ++ a.newHs.map (fun g => (name, g))⟩

/-- Twelve-mark synthetic fallback question numbered `i`. -/
def twelveFallbackQ (i : Nat) : Str :=
  ('Q' :: natDigits i) ++
    (". Discuss in detail the important concepts and applications from this unit with appropriate examples and analysis.".data)

/-- The twelve-mark orchestrator `generate_twelve_mark_questions`, at the
level of its question-record list: counter starts at 19; fewer than 10
records are padded with fallback questions continuing the numbering, and
the list is truncated to exactly 10. -/
def twelveMarkRecords (fp : Str → Str) (hist : Hist) (units : List Str)
    (api : Nat → Except Str Str) : TierOut :=
  match twelveFoldUnits fp api units 0 ⟨[], 19, hist, []⟩ with
  | (st, some e) => ⟨st.hist, st.accepted, .error e⟩
  | (st, none) =>
    let final :=
      if st.allQs.length < 10 then
        st.allQs ++
          (List.range (10 - st.allQs.length)).map (fun j => twelveFallbackQ (st.ctr + j))
      else st.allQs
    ⟨st.hist, st.accepted, .ok (final.take 10)⟩

/-- The twelve-mark orchestrator's returned text:
`"\n\n".join(all_questions[:10])`. -/
def generate_twelve_mark_questions (fp : Str → Str) (hist : Hist) (units : List Str)
    (api : Nat → Except Str Str) : Except Str Str :=
  (twelveMarkRecords fp hist units api).result.map (List.intercalate ("\n\n".data))

/-- Check that the records carry the contiguous markers `Q<n>.`,
`Q<n+1>.`, ... in order. -/
def markersFrom (n : Nat) : List Str → Bool
  | [] => true
  | r :: rs => (qMarker n).isPrefixOf r && markersFrom (n + 1) rs

theorem isPrefixOf_append_self : ∀ (l t : Str), l.isPrefixOf (l ++ t) = true := by
  intro l
  induction l with
  | nil => intro t; simp [List.isPrefixOf]
  | cons c cs ih => intro t; simp [List.isPrefixOf, ih]

theorem isPrefixOf_self (l : Str) : l.isPrefixOf l = true := by
  have h := isPrefixOf_append_self l []
  rwa [List.append_nil] at h

theorem renumberSix_marker (n : Nat) (q : Str) :
    (qMarker n).isPrefixOf (renumberSix n q) = true := by
  unfold renumberSix
  cases hm : dropMalformed q with
  | some rest =>
    by_cases hr : stripPy rest ≠ []
    · simp [hr, isPrefixOf_append_self]
    · simp [hr, isPrefixOf_self]
  | none =>
    cases hs : splitOnceChar '.' q with
    | some p =>
      obtain ⟨pre, post⟩ := p
      simp [isPrefixOf_append_self]
    | none => simp [isPrefixOf_self]

theorem renumberTwelve_marker (n : Nat) (q : Str) :
    (qMarker n).isPrefixOf (renumberTwelve n q) = true := by
  unfold renumberTwelve
  cases hs : splitOnceChar '.' q with
  | some p =>
    obtain ⟨pre, post⟩ := p
    simp [isPrefixOf_append_self]
  | none => simp [isPrefixOf_self]

theorem sixFallbackQ_marker (i : Nat) : (qMarker i).isPrefixOf (sixFallbackQ i) = true := by
  have hdot : (". Explain the key concepts covered in this unit with suitable examples.".data)
      = '.' :: (" Explain the key concepts covered in this unit with suitable examples.".data) :=
    rfl
  have h : sixFallbackQ i
      = qMarker i ++ (" Explain the key concepts covered in this unit with suitable examples.".data) := by
    simp [sixFallbackQ, qMarker, hdot]
  rw [h]
  exact isPrefixOf_append_self _ _

theorem twelveFallbackQ_marker (i : Nat) :
    (qMarker i).isPrefixOf (twelveFallbackQ i) = true := by
  have hdot : (". Discuss in detail the important concepts and applications from this unit with appropriate examples and analysis.".data)
      = '.' :: (" Discuss in detail the important concepts and applications from this unit with appropriate examples and analysis.".data) :=
    rfl
  have h : twelveFallbackQ i
      = qMarker i ++ (" Discuss in detail the important concepts and applications from this unit with appropriate examples and analysis.".data) := by
    simp [twelveFallbackQ, qMarker, hdot]
  rw [h]
  exact isPrefixOf_append_self _ _

theorem markersFrom_append : ∀ (rs : List Str) (n : Nat) (r : Str),
    markersFrom n rs = true → (qMarker (n + rs.length)).isPrefixOf r = true →
    markersFrom n (rs ++ [r]) = true := by
  intro rs
  induction rs with
  | nil =>
    intro n r _ hp
    simp [markersFrom]
    simpa using hp
  | cons x xs ih =>
    intro n r hm hp
    simp only [markersFrom, Bool.and_eq_true] at hm
    have harith : n + (x :: xs).length = (n + 1) + xs.length := by
      simp [List.length_cons]
      omega
    rw [harith] at hp
    have h2 := ih (n + 1) r hm.2 hp
    simp [markersFrom, hm.1, h2]

theorem markersFrom_take : ∀ (rs : List Str) (n k : Nat),
    markersFrom n rs = true → markersFrom n (rs.take k) = true := by
  intro rs
  induction rs with
  | nil => intro n k _; simp [markersFrom]
  | cons x xs ih =>
    intro n k hm
    cases k with
    | zero => simp [markersFrom]
    | succ k' =>
      simp only [List.take_succ_cons]
      simp only [markersFrom, Bool.and_eq_true] at hm ⊢
      exact ⟨hm.1, ih (n + 1) k' hm.2⟩

theorem markersFrom_pad (fb : Nat → Str) (hfb : ∀ i, (qMarker i).isPrefixOf (fb i) = true) :
    ∀ (k : Nat) (rs : List Str) (n : Nat), markersFrom n rs = true →
      markersFrom n (rs ++ (List.range k).map (fun j => fb (n + rs.length + j))) = true := by
  intro k
  induction k with
  | zero => intro rs n hm; simpa using hm
  | succ k' ih =>
    intro rs n hm
    rw [List.range_succ, List.map_append, ← List.append_assoc]
    apply markersFrom_append
    · exact ih rs n hm
    · have hlen : (rs ++ (List.range k').map (fun j => fb (n + rs.length + j))).length
          = rs.length + k' := by simp
      rw [hlen]
      have harith : n + (rs.length + k') = n + rs.length + k' := by omega
      rw [harith]
      exact hfb (n + rs.length + k')

theorem numbering_extend (b : Nat) (allQs : List Str) (ctr : Nat) (r : Str)
    (hpre : (qMarker ctr).isPrefixOf r = true)
    (h1 : ctr = b + allQs.length) (h2 : markersFrom b allQs = true) :
    ctr + 1 = b + (allQs ++ [r]).length ∧ markersFrom b (allQs ++ [r]) = true := by
  constructor
  · simp [h1]
    omega
  · apply markersFrom_append allQs b r h2
    rw [← h1]
    exact hpre

theorem sixAccept_numbering (fp : Str → Str) (cum : Nat) :
    ∀ (cands : List Str) (st : AccSt),
      st.ctr = 11 + st.allQs.length → markersFrom 11 st.allQs = true →
      ((sixAccept fp cum cands st).ctr = 11 + (sixAccept fp cum cands st).allQs.length
        ∧ markersFrom 11 (sixAccept fp cum cands st).allQs = true) := by
  intro cands
  induction cands with
  | nil => intro st h1 h2; exact ⟨h1, h2⟩
  | cons q rest ih =>
    intro st h1 h2
    by_cases hq : q ≠ [] ∧ headIs 'Q' q = true
    · by_cases hmem : hashNorm fp (renumberSix st.ctr q) ∈ st.uh
      · have hstep : sixAccept fp cum (q :: rest) st = sixAccept fp cum rest st := by
          simp [sixAccept, hq, hmem]
        rw [hstep]
        exact ih st h1 h2
      · have hext := numbering_extend 11 st.allQs st.ctr (renumberSix st.ctr q)
          (renumberSix_marker st.ctr q) h1 h2
        by_cases hbrk : (cum : Int) = (st.allQs.length : Int) + 1 - 11
        · have hstep : sixAccept fp cum (q :: rest) st
              = ⟨st.allQs ++ [renumberSix st.ctr q], st.ctr + 1,
                  st.uh ++ [hashNorm fp (renumberSix st.ctr q)],
                  st.newHs ++ [hashNorm fp (renumberSix st.ctr q)]⟩ := by
            simp [sixAccept, hq, hmem, hbrk]
          rw [hstep]
          exact ⟨hext.1, hext.2⟩
        · have hstep : sixAccept fp cum (q :: rest) st
              = sixAccept fp cum rest
                  ⟨st.allQs ++ [renumberSix st.ctr q], st.ctr + 1,
                    st.uh ++ [hashNorm fp (renumberSix st.ctr q)],
                    st.newHs ++ [hashNorm fp (renumberSix st.ctr q)]⟩ := by
            simp [sixAccept, hq, hmem, hbrk]
          rw [hstep]
          exact ih _ hext.1 hext.2
    · have hstep : sixAccept fp cum (q :: rest) st = sixAccept fp cum rest st := by
        simp [sixAccept, hq]
      rw [hstep]
      exact ih st h1 h2

theorem twelveAccept_numbering (fp : Str → Str) :
    ∀ (cands : List Str) (st : Acc12St),
      st.ctr = 19 + st.allQs.length → markersFrom 19 st.allQs = true →
      ((twelveAccept fp cands st).ctr = 19 + (twelveAccept fp cands st).allQs.length
        ∧ markersFrom 19 (twelveAccept fp cands st).allQs = true) := by
  intro cands
  induction cands with
  | nil => intro st h1 h2; exact ⟨h1, h2⟩
  | cons q rest ih =>
    intro st h1 h2
    by_cases hq : q ≠ [] ∧ headIs 'Q' q = true ∧ st.added < 2
    · by_cases hmem : hashNorm fp q ∈ st.uh
      · have hstep : twelveAccept fp (q :: rest) st = twelveAccept fp rest st := by
          simp [twelveAccept, hq, hmem]
        rw [hstep]
        exact ih st h1 h2
      · have hext := numbering_extend 19 st.allQs st.ctr (renumberTwelve st.ctr q)
          (renumberTwelve_marker st.ctr q) h1 h2
        have hstep : twelveAccept fp (q :: rest) st
            = twelveAccept fp rest
                ⟨st.added + 1, st.allQs ++ [renumberTwelve st.ctr q], st.ctr + 1,
                  st.uh ++ [hashNorm fp q], st.newHs ++ [hashNorm fp q]⟩ := by
          simp [twelveAccept, hq, hmem]
        rw [hstep]
        exact ih _ hext.1 hext.2
    · have hstep : twelveAccept fp (q :: rest) st = twelveAccept fp rest st := by
        simp [twelveAccept, hq]
      rw [hstep]
      exact ih st h1 h2

theorem sixFoldUnits_numbering (fp : Str → Str) (units : List Str)
    (api : Nat → Except Str Str) :
    ∀ (entries : List (Nat × Nat)) (cum : Nat) (st : TierSt),
      st.ctr = 11 + st.allQs.length → markersFrom 11 st.allQs = true →
      ((sixFoldUnits fp units api entries cum st).1.ctr
          = 11 + (sixFoldUnits fp units api entries cum st).1.allQs.length
        ∧ markersFrom 11 (sixFoldUnits fp units api entries cum st).1.allQs = true) := by
  intro entries
  induction entries with
  | nil => intro cum st h1 h2; exact ⟨h1, h2⟩
  | cons e rest ih =>
    intro cum st h1 h2
    obtain ⟨uidx, cnt⟩ := e
    by_cases hlt : uidx < units.length
    · cases hapi : api uidx with
      | error err =>
        have hstep : sixFoldUnits fp units api ((uidx, cnt) :: rest) cum st
            = (st, some (sixWrap (unitShortName (units.get ⟨uidx, hlt⟩)) err)) := by
          simp [sixFoldUnits, hlt, hapi]
        rw [hstep]
        exact ⟨h1, h2⟩
      | ok raw =>
        have hacc := sixAccept_numbering fp (cum + cnt) (parseQLines raw)
          ⟨st.allQs, st.ctr, st.hist (unitShortName (units.get ⟨uidx, hlt⟩)), []⟩ h1 h2
        have hstep : sixFoldUnits fp units api ((uidx, cnt) :: rest) cum st
            = sixFoldUnits fp units api rest (cum + cnt)
                ⟨(sixAccept fp (cum + cnt) (parseQLines raw)
                    ⟨st.allQs, st.ctr, st.hist (unitShortName (units.get ⟨uidx, hlt⟩)), []⟩).allQs,
                  (sixAccept fp (cum + cnt) (parseQLines raw)
                    ⟨st.allQs, st.ctr, st.hist (unitShortName (units.get ⟨uidx, hlt⟩)), []⟩).ctr,
                  updateH st.hist (unitShortName (units.get ⟨uidx, hlt⟩))
                    (sixAccept fp (cum + cnt) (parseQLines raw)
                      ⟨st.allQs, st.ctr, st.hist (unitShortName (units.get ⟨uidx, hlt⟩)), []⟩).uh,
                  st.accepted ++
                    ((sixAccept fp (cum + cnt) (parseQLines raw)
                      ⟨st.allQs, st.ctr, st.hist (unitShortName (units.get ⟨uidx, hlt⟩)), []⟩).newHs).map
                      (fun g => (unitShortName (units.get ⟨uidx, hlt⟩), g))⟩ := by
          simp [sixFoldUnits, hlt, hapi]
        rw [hstep]
        exact ih (cum + cnt) _ hacc.1 hacc.2
    · have hstep : sixFoldUnits fp units api ((uidx, cnt) :: rest) cum st
          = sixFoldUnits fp units api rest (cum + cnt) st := by
        simp [sixFoldUnits, hlt]
      rw [hstep]
      exact ih (cum + cnt) st h1 h2

theorem twelveFoldUnits_numbering (fp : Str → Str) (api : Nat → Except Str Str) :
    ∀ (us : List Str) (idx : Nat) (st : TierSt),
      st.ctr = 19 + st.allQs.length → markersFrom 19 st.allQs = true →
      ((twelveFoldUnits fp api us idx st).1.ctr
          = 19 + (twelveFoldUnits fp api us idx st).1.allQs.length
        ∧ markersFrom 19 (twelveFoldUnits fp api us idx st).1.allQs = true) := by
  intro us
  induction us with
  | nil => intro idx st h1 h2; exact ⟨h1, h2⟩
  | cons unit rest ih =>
    intro idx st h1 h2
    cases hapi : api idx with
    | error err =>
      have hstep : twelveFoldUnits fp api (unit :: rest) idx st
          = (st, some (twelveWrap (unitShortName unit) err)) := by
        simp [twelveFoldUnits, hapi]
      rw [hstep]
      exact ⟨h1, h2⟩
    | ok raw =>
      have hacc := twelveAccept_numbering fp (parseQLines raw)
        ⟨0, st.allQs, st.ctr, st.hist (unitShortName unit), []⟩ h1 h2
      have hstep : twelveFoldUnits fp api (unit :: rest) idx st
          = twelveFoldUnits fp api rest (idx + 1)
              ⟨(twelveAccept fp (parseQLines raw)
                  ⟨0, st.allQs, st.ctr, st.hist (unitShortName unit), []⟩).allQs,
                (twelveAccept fp (parseQLines raw)
                  ⟨0, st.allQs, st.ctr, st.hist (unitShortName unit), []⟩).ctr,
                updateH st.hist (unitShortName unit)
                  (twelveAccept fp (parseQLines raw)
                    ⟨0, st.allQs, st.ctr, st.hist (unitShortName unit), []⟩).uh,
                st.accepted ++
                  ((twelveAccept fp (parseQLines raw)
                    ⟨0, st.allQs, st.ctr, st.hist (unitShortName unit), []⟩).newHs).map
                    (fun g => (unitShortName unit, g))⟩ := by
        simp [twelveFoldUnits, hapi]
      rw [hstep]
      exact ih (idx + 1) _ hacc.1 hacc.2

theorem sixMarkRecords_quota (fp : Str → Str) (hist : Hist) (units : List Str)
    (api : Nat → Except Str Str) (recs : List Str)
    (hok : (sixMarkRecords fp hist units api).result = Except.ok recs) :
    recs.length = 8 ∧ markersFrom 11 recs = true := by
  have hinv := sixFoldUnits_numbering fp units api sixDistribution 0 ⟨[], 11, hist, []⟩
    (by simp) (by simp [markersFrom])
  rcases hfold : sixFoldUnits fp units api sixDistribution 0 ⟨[], 11, hist, []⟩ with ⟨st, e?⟩
  rw [hfold] at hinv
  cases e? with
  | some e =>
    rw [sixMarkRecords, hfold] at hok
    simp at hok
  | none =>
    rw [sixMarkRecords, hfold] at hok
    simp only [Except.ok.injEq] at hok
    subst hok
    by_cases hlen : st.allQs.length < 8
    · constructor
      · simp [hlen]
        omega
      · apply markersFrom_take
        simp only [hlen, if_true]
        have hpad := markersFrom_pad sixFallbackQ sixFallbackQ_marker
          (8 - st.allQs.length) st.allQs 11 hinv.2
        have hctr : st.ctr = 11 + st.allQs.length := hinv.1
        simp only [hctr]
        convert hpad using 3
    · constructor
      · simp [hlen]
        omega
      · apply markersFrom_take
        simp only [hlen, if_false]
        exact hinv.2

theorem twelveMarkRecords_quota (fp : Str → Str) (hist : Hist) (units : List Str)
    (api : Nat → Except Str Str) (recs : List Str)
    (hok : (twelveMarkRecords fp hist units api).result = Except.ok recs) :
    recs.length = 10 ∧ markersFrom 19 recs = true := by
  have hinv := twelveFoldUnits_numbering fp api units 0 ⟨[], 19, hist, []⟩
    (by simp) (by simp [markersFrom])
  rcases hfold : twelveFoldUnits fp api units 0 ⟨[], 19, hist, []⟩ with ⟨st, e?⟩
  rw [hfold] at hinv
  cases e? with
  | some e =>
    rw [twelveMarkRecords, hfold] at hok
    simp at hok
  | none =>
    rw [twelveMarkRecords, hfold] at hok
    simp only [Except.ok.injEq] at hok
    subst hok
    by_cases hlen : st.allQs.length < 10
    · constructor
      · simp [hlen]
        omega
      · apply markersFrom_take
        simp only [hlen, if_true]
        have hpad := markersFrom_pad twelveFallbackQ twelveFallbackQ_marker
          (10 - st.allQs.length) st.allQs 19 hinv.2
        have hctr : st.ctr = 19 + st.allQs.length := hinv.1
        simp only [hctr]
        convert hpad using 3
    · constructor
      · simp [hlen]
        omega
      · apply markersFrom_take
        simp only [hlen, if_false]
        exact hinv.2

/-! ## Claim C1 -/

/-- C1: for every six-mark orchestrator run that returns, the record list
joined into the returned text contains exactly 8 question records, and for
every twelve-mark run that returns, exactly 10; the records' leading
markers are contiguous, `Q11.` ... `Q18.` for the six-mark tier and `Q19.`
... `Q28.` for the twelve-mark tier. (`generate_six_mark_questions` and
`generate_twelve_mark_questions` return these records joined with blank
lines.) -/
theorem c1_tier_quota_and_numbering (fp : Str → Str) (h6 h12 : Hist)
    (us6 us12 : List Str) (api6 api12 : Nat → Except Str Str) (r6 r12 : List Str)
    (hok6 : (sixMarkRecords fp h6 us6 api6).result = Except.ok r6)
    (hok12 : (twelveMarkRecords fp h12 us12 api12).result = Except.ok r12) :
    r6.length = 8 ∧ markersFrom 11 r6 = true
    ∧ r12.length = 10 ∧ markersFrom 19 r12 = true := by
  obtain ⟨hl6, hm6⟩ := sixMarkRecords_quota fp h6 us6 api6 r6 hok6
  obtain ⟨hl12, hm12⟩ := twelveMarkRecords_quota fp h12 us12 api12 r12 hok12
  exact ⟨hl6, hm6, hl12, hm12⟩

/-- Record list of the six-mark demonstration run on an empty unit list
(all records are fallbacks `Q11.` ... `Q18.`). -/
def c1demo6 : List Str := (List.range 8).map (fun j => sixFallbackQ (11 + j))

/-- Record list of the twelve-mark demonstration run on an empty unit list
(all records are fallbacks `Q19.` ... `Q28.`). -/
def c1demo12 : List Str := (List.range 10).map (fun j => twelveFallbackQ (19 + j))

/-- C1 witness: a concrete returning run of both orchestrators, with the
quota and numbering conclusions evaluated. -/
theorem c1_witness :
    (sixMarkRecords (fun s => s) emptyH [] (fun _ => Except.ok [])).result
      = Except.ok c1demo6
    ∧ (twelveMarkRecords (fun s => s) emptyH [] (fun _ => Except.ok [])).result
      = Except.ok c1demo12
    ∧ c1demo6.length = 8 ∧ markersFrom 11 c1demo6 = true
    ∧ c1demo12.length = 10 ∧ markersFrom 19 c1demo12 = true := by
  have h6 : (sixMarkRecords (fun s => s) emptyH [] (fun _ => Except.ok [])).result
      = Except.ok c1demo6 := rfl
  have h12 : (twelveMarkRecords (fun s => s) emptyH [] (fun _ => Except.ok [])).result
      = Except.ok c1demo12 := rfl
  have hc := c1_tier_quota_and_numbering (fun s => s) emptyH emptyH [] []
    (fun _ => Except.ok []) (fun _ => Except.ok []) c1demo6 c1demo12 h6 h12
  exact ⟨h6, h12, hc.1, hc.2.1, hc.2.2.1, hc.2.2.2⟩

/-! ## Claim C2 -/

/-- API outcomes for the C2 counterexample: the first unit's call fails,
the second unit's call would succeed. -/
def c2api : Nat → Except Str Str :=
  fun i => if i = 0 then Except.error ("boom".data) else Except.ok ("Q1. About b".data)

/-- C2 counterexample. With two units where unit 1 fails and unit 2 would
succeed, the six-mark orchestrator does not catch the failure and
substitute a placeholder: the per-unit `except` clause re-raises a wrapped
exception, the whole tier aborts, and unit 2's question appears in no
output — contradicting the claim that a failure in one unit never prevents
the other units' questions from appearing in the tier's output. -/
theorem c2_counterexample :
    (sixMarkRecords (fun s => s) emptyH [("U1: a".data), ("U2: b".data)] c2api).result
      = Except.error ("Error generating six-mark questions for U1: boom".data)
    ∧ c2api 1 = Except.ok ("Q1. About b".data) :=
  ⟨rfl, rfl⟩

/-- C2 (amended): only the one-mark loop in `app.py` catches a per-unit
failure, substitutes the fallback placeholder block for that unit's quota
and continues (first conjunct — the step is total and appends exactly the
fallback entry); the six- and twelve-mark orchestrators re-raise the first
failing unit's exception with a wrapped message, aborting the whole tier
(second and third conjuncts), after which `app.py` replaces the entire
tier's output with a whole-tier fallback. -/
theorem c2_amended_per_unit_failure (fp : Str → Str) (n : Nat) (st : AppSt) (u e : Str)
    (h : Hist) (rest : List Str) (api : Nat → Except Str Str)
    (hapi : api 0 = Except.error e) :
    oneMarkLoopStep fp n st (u, Except.error e)
      = ⟨st.hist, st.entries ++ [(u, fallbackText u n st.counter)], st.counter + n,
          st.accepted⟩
    ∧ (sixMarkRecords fp h (u :: rest) api).result = Except.error (sixWrap (unitShortName u) e)
    ∧ (twelveMarkRecords fp h (u :: rest) api).result
        = Except.error (twelveWrap (unitShortName u) e) := by
  refine ⟨?_, ?_, ?_⟩
  · simp [oneMarkLoopStep, generate_one_mark_questions]
  · simp [sixMarkRecords, sixFoldUnits, sixDistribution, hapi]
  · simp [twelveMarkRecords, twelveFoldUnits, hapi]

/-- C2 witness: the amended theorem evaluated on a concrete failing unit. -/
theorem c2_witness :
    oneMarkLoopStep (fun s => s) 2 ⟨emptyH, [], 1, []⟩ (("U1: a".data), Except.error ("boom".data))
      = ⟨emptyH, [(("U1: a".data), fallbackText ("U1: a".data) 2 1)], 3, []⟩
    ∧ (sixMarkRecords (fun s => s) emptyH [("U1: a".data)]
        (fun _ => Except.error ("boom".data))).result
      = Except.error (sixWrap (unitShortName ("U1: a".data)) ("boom".data))
    ∧ (twelveMarkRecords (fun s => s) emptyH [("U1: a".data)]
        (fun _ => Except.error ("boom".data))).result
      = Except.error (twelveWrap (unitShortName ("U1: a".data)) ("boom".data)) :=
  c2_amended_per_unit_failure (fun s => s) 2 ⟨emptyH, [], 1, []⟩ ("U1: a".data) ("boom".data)
    emptyH [] (fun _ => Except.error ("boom".data)) rfl

/-! ## Claim C6 -/

/-- API outcome for the C6 evaluation: one unit whose response parses into
three well-formed, pairwise distinct candidates. -/
def c6api : Nat → Except Str Str :=
  fun _ => Except.ok ("Q1. one\nQ2. two\nQ3. three".data)

/-- C6 evaluation at the failing input. The six-mark distribution assigns
unit index 0 a quota of 2 (`sixDistribution`), yet a single call whose
response holds 3 unique candidates accepts all 3 for that unit: the
acceptance loop's stop condition compares the cumulative quota with
`len(all_questions) - 11`, which is negative here, so it never fires and
`num_questions` is never consulted during acceptance — the code contradicts
its own docstring distribution (2/2/2/1/1) and the claim's per-unit stop. -/
theorem c6_six_mark_overaccepts :
    (sixMarkRecords (fun s => s) emptyH [("U1: alpha".data)] c6api).accepted
      = [(("U1".data), ("q11. one".data)), (("U1".data), ("q12. two".data)),
         (("U1".data), ("q13. three".data))]
    ∧ (sixMarkRecords (fun s => s) emptyH [("U1: alpha".data)] c6api).accepted.length = 3
    ∧ sixDistribution.headD (0, 0) = (0, 2) :=
  ⟨rfl, rfl, rfl⟩

/-! ## History monotonicity and freshness of the acceptance loops -/

theorem oneMarkAccept_inv (fp : Str → Str) (n : Nat) (u0 : List Str) :
    ∀ (cands : List Str) (st : Acc1St),
      u0 <+: st.uh → (∀ g ∈ st.newHs, g ∉ u0) →
      (u0 <+: (oneMarkAccept fp n cands st).uh
        ∧ ∀ g ∈ (oneMarkAccept fp n cands st).newHs, g ∉ u0) := by
  intro cands
  induction cands with
  | nil => intro st h1 h2; exact ⟨h1, h2⟩
  | cons q rest ih =>
    intro st h1 h2
    by_cases hq : stripPy q ≠ [] ∧ 'Q' ∈ q.take 10
    · by_cases hmem : hashNorm fp q ∈ st.uh
      · by_cases hn : st.finals.length = n
        · have hstep : oneMarkAccept fp n (q :: rest) st = st := by
            simp [oneMarkAccept, hq, hmem, hn]
          rw [hstep]
          exact ⟨h1, h2⟩
        · have hstep : oneMarkAccept fp n (q :: rest) st = oneMarkAccept fp n rest st := by
            simp [oneMarkAccept, hq, hmem, hn]
          rw [hstep]
          exact ih st h1 h2
      · have h1' : u0 <+: (st.uh ++ [hashNorm fp q]) := h1.trans (List.prefix_append _ _)
        have h2' : ∀ g ∈ st.newHs ++ [hashNorm fp q], g ∉ u0 := by
          intro g hg
          rcases List.mem_append.mp hg with hg | hg
          · exact h2 g hg
          · have hgq : g = hashNorm fp q := by simpa using hg
            subst hgq
            intro hmem0
            exact hmem (h1.subset hmem0)
        by_cases hn : st.finals.length + 1 = n
        · have hstep : oneMarkAccept fp n (q :: rest) st
              = ⟨st.finals ++ [q], st.newHs ++ [hashNorm fp q], st.uh ++ [hashNorm fp q]⟩ := by
            simp [oneMarkAccept, hq, hmem, hn]
          rw [hstep]
          exact ⟨h1', h2'⟩
        · have hstep : oneMarkAccept fp n (q :: rest) st
              = oneMarkAccept fp n rest
                  ⟨st.finals ++ [q], st.newHs ++ [hashNorm fp q], st.uh ++ [hashNorm fp q]⟩ := by
            simp [oneMarkAccept, hq, hmem, hn]
          rw [hstep]
          exact ih _ h1' h2'
    · by_cases hn : st.finals.length = n
      · have hstep : oneMarkAccept fp n (q :: rest) st = st := by
          simp [oneMarkAccept, hq, hn]
        rw [hstep]
        exact ⟨h1, h2⟩
      · have hstep : oneMarkAccept fp n (q :: rest) st = oneMarkAccept fp n rest st := by
          simp [oneMarkAccept, hq, hn]
        rw [hstep]
        exact ih st h1 h2

theorem sixAccept_inv (fp : Str → Str) (cum : Nat) (u0 : List Str) :
    ∀ (cands : List Str) (st : AccSt),
      u0 <+: st.uh → (∀ g ∈ st.newHs, g ∉ u0) →
      (u0 <+: (sixAccept fp cum cands st).uh
        ∧ ∀ g ∈ (sixAccept fp cum cands st).newHs, g ∉ u0) := by
  intro cands
  induction cands with
  | nil => intro st h1 h2; exact ⟨h1, h2⟩
  | cons q rest ih =>
    intro st h1 h2
    by_cases hq : q ≠ [] ∧ headIs 'Q' q = true
    · by_cases hmem : hashNorm fp (renumberSix st.ctr q) ∈ st.uh
      · have hstep : sixAccept fp cum (q :: rest) st = sixAccept fp cum rest st := by
          simp [sixAccept, hq, hmem]
        rw [hstep]
        exact ih st h1 h2
      · have h1' : u0 <+: (st.uh ++ [hashNorm fp (renumberSix st.ctr q)]) :=
          h1.trans (List.prefix_append _ _)
        have h2' : ∀ g ∈ st.newHs ++ [hashNorm fp (renumberSix st.ctr q)], g ∉ u0 := by
          intro g hg
          rcases List.mem_append.mp hg with hg | hg
          · exact h2 g hg
          · have hgq : g = hashNorm fp (renumberSix st.ctr q) := by simpa using hg
            subst hgq
            intro hmem0
            exact hmem (h1.subset hmem0)
        by_cases hbrk : (cum : Int) = (st.allQs.length : Int) + 1 - 11
        · have hstep : sixAccept fp cum (q :: rest) st
              = ⟨st.allQs ++ [renumberSix st.ctr q], st.ctr + 1,
                  st.uh ++ [hashNorm fp (renumberSix st.ctr q)],
                  st.newHs ++ [hashNorm fp (renumberSix st.ctr q)]⟩ := by
            simp [sixAccept, hq, hmem, hbrk]
          rw [hstep]
          exact ⟨h1', h2'⟩
        · have hstep : sixAccept fp cum (q :: rest) st
              = sixAccept fp cum rest
                  ⟨st.allQs ++ [renumberSix st.ctr q], st.ctr + 1,
                    st.uh ++ [hashNorm fp (renumberSix st.ctr q)],
                    st.newHs ++ [hashNorm fp (renumberSix st.ctr q)]⟩ := by
            simp [sixAccept, hq, hmem, hbrk]
          rw [hstep]
          exact ih _ h1' h2'
    · have hstep : sixAccept fp cum (q :: rest) st = sixAccept fp cum rest st := by
        simp [sixAccept, hq]
      rw [hstep]
      exact ih st h1 h2

theorem twelveAccept_inv (fp : Str → Str) (u0 : List Str) :
    ∀ (cands : List Str) (st : Acc12St),
      u0 <+: st.uh → (∀ g ∈ st.newHs, g ∉ u0) →
      (u0 <+: (twelveAccept fp cands st).uh
        ∧ ∀ g ∈ (twelveAccept fp cands st).newHs, g ∉ u0) := by
  intro cands
  induction cands with
  | nil => intro st h1 h2; exact ⟨h1, h2⟩
  | cons q rest ih =>
    intro st h1 h2
    by_cases hq : q ≠ [] ∧ headIs 'Q' q = true ∧ st.added < 2
    · by_cases hmem : hashNorm fp q ∈ st.uh
      · have hstep : twelveAccept fp (q :: rest) st = twelveAccept fp rest st := by
          simp [twelveAccept, hq, hmem]
        rw [hstep]
        exact ih st h1 h2
      · have h1' : u0 <+: (st.uh ++ [hashNorm fp q]) := h1.trans (List.prefix_append _ _)
        have h2' : ∀ g ∈ st.newHs ++ [hashNorm fp q], g ∉ u0 := by
          intro g hg
          rcases List.mem_append.mp hg with hg | hg
          · exact h2 g hg
          · have hgq : g = hashNorm fp q := by simpa using hg
            subst hgq
            intro hmem0
            exact hmem (h1.subset hmem0)
        have hstep : twelveAccept fp (q :: rest) st
            = twelveAccept fp rest
                ⟨st.added + 1, st.allQs ++ [renumberTwelve st.ctr q], st.ctr + 1,
                  st.uh ++ [hashNorm fp q], st.newHs ++ [hashNorm fp q]⟩ := by
          simp [twelveAccept, hq, hmem]
        rw [hstep]
        exact ih _ h1' h2'
    · have hstep : twelveAccept fp (q :: rest) st = twelveAccept fp rest st := by
        simp [twelveAccept, hq]
      rw [hstep]
      exact ih st h1 h2

/-! ## Multi-call runs against the same history store -/

/-- A sequence of generation calls of one tier against the same persisted
history store: each call reads the store left by the previous call; the
accepted `(unit short name, fingerprint)` pairs of all calls are collected
in order. -/
def runCalls {ι : Type} (call : Hist → ι → Hist × List (Str × Str)) :
    Hist → List ι → Hist × List (Str × Str)
  | h, [] => (h, [])
  | h, i :: is =>
    let r := call h i
    let rest := runCalls call r.1 is
    (rest.1, r.2 ++ rest.2)

/-- One one-mark generation call as a history transformer; the input is
`(unit, questions_per_unit, start_qno, api outcome)`. -/
def oneMarkCall (fp : Str → Str) (h : Hist) (inp : Str × Nat × Nat × Except Str Str) :
    Hist × List (Str × Str) :=
  let o := generate_one_mark_questions fp h inp.1 inp.2.1 inp.2.2.1 inp.2.2.2
  (o.hist, o.accepted)

/-- One six-mark orchestrator run as a history transformer; the input is
`(units, per-unit api outcomes)`. -/
def sixCall (fp : Str → Str) (h : Hist) (inp : List Str × (Nat → Except Str Str)) :
    Hist × List (Str × Str) :=
  let o := sixMarkRecords fp h inp.1 inp.2
  (o.hist, o.accepted)

/-- One twelve-mark orchestrator run as a history transformer. -/
def twelveCall (fp : Str → Str) (h : Hist) (inp : List Str × (Nat → Except Str Str)) :
    Hist × List (Str × Str) :=
  let o := twelveMarkRecords fp h inp.1 inp.2
  (o.hist, o.accepted)

theorem oneCall_inv (fp : Str → Str) (h : Hist) (inp : Str × Nat × Nat × Except Str Str) :
    (∀ nm, h nm <+: (oneMarkCall fp h inp).1 nm)
    ∧ (∀ p ∈ (oneMarkCall fp h inp).2, p.2 ∉ h p.1) := by
  obtain ⟨unit, n, start, api⟩ := inp
  cases api with
  | error e =>
    constructor
    · intro nm
      have hh : (oneMarkCall fp h (unit, n, start, Except.error e)).1 = h := by
        simp [oneMarkCall, generate_one_mark_questions]
      rw [hh]
    · intro p hp
      have hh : (oneMarkCall fp h (unit, n, start, Except.error e)).2 = [] := by
        simp [oneMarkCall, generate_one_mark_questions]
      rw [hh] at hp
      simp at hp
  | ok raw =>
    have hacc := oneMarkAccept_inv fp n (h (unitShortName unit))
      (splitDoubleNl (stripPy raw)) ⟨[], [], h (unitShortName unit)⟩
      (List.prefix_refl _) (by simp)
    by_cases hfin :
        (oneMarkAccept fp n (splitDoubleNl (stripPy raw))
          ⟨[], [], h (unitShortName unit)⟩).finals = []
    · constructor
      · intro nm
        have hh : (oneMarkCall fp h (unit, n, start, Except.ok raw)).1 = h := by
          simp [oneMarkCall, generate_one_mark_questions, hfin]
        rw [hh]
      · intro p hp
        have hh : (oneMarkCall fp h (unit, n, start, Except.ok raw)).2 = [] := by
          simp [oneMarkCall, generate_one_mark_questions, hfin]
        rw [hh] at hp
        simp at hp
    · constructor
      · intro nm
        have hh : (oneMarkCall fp h (unit, n, start, Except.ok raw)).1
            = updateH h (unitShortName unit)
                (oneMarkAccept fp n (splitDoubleNl (stripPy raw))
                  ⟨[], [], h (unitShortName unit)⟩).uh := by
          simp [oneMarkCall, generate_one_mark_questions, hfin]
        rw [hh]
        by_cases hnm : nm = unitShortName unit
        · subst hnm
          simp only [updateH, if_pos rfl]
          exact hacc.1
        · simp only [updateH, if_neg hnm]
          exact List.prefix_refl _
      · intro p hp
        have hh : (oneMarkCall fp h (unit, n, start, Except.ok raw)).2
            = ((oneMarkAccept fp n (splitDoubleNl (stripPy raw))
                ⟨[], [], h (unitShortName unit)⟩).newHs).map
                (fun g => (unitShortName unit, g)) := by
          simp [oneMarkCall, generate_one_mark_questions, hfin]
        rw [hh] at hp
        obtain ⟨g, hg, hpg⟩ := List.mem_map.mp hp
        rw [← hpg]
        exact hacc.2 g hg

theorem sixFoldUnits_histInv (fp : Str → Str) (units : List Str)
    (api : Nat → Except Str Str) (h0 : Hist) :
    ∀ (entries : List (Nat × Nat)) (cum : Nat) (st : TierSt),
      (∀ nm, h0 nm <+: st.hist nm) → (∀ p ∈ st.accepted, p.2 ∉ h0 p.1) →
      ((∀ nm, h0 nm <+: (sixFoldUnits fp units api entries cum st).1.hist nm)
        ∧ ∀ p ∈ (sixFoldUnits fp units api entries cum st).1.accepted, p.2 ∉ h0 p.1) := by
  intro entries
  induction entries with
  | nil => intro cum st hh ha; exact ⟨hh, ha⟩
  | cons e rest ih =>
    intro cum st hh ha
    obtain ⟨uidx, cnt⟩ := e
    by_cases hlt : uidx < units.length
    · cases hapi : api uidx with
      | error err =>
        have hstep : sixFoldUnits fp units api ((uidx, cnt) :: rest) cum st
            = (st, some (sixWrap (unitShortName (units.get ⟨uidx, hlt⟩)) err)) := by
          simp [sixFoldUnits, hlt, hapi]
        rw [hstep]
        exact ⟨hh, ha⟩
      | ok raw =>
        have hacc := sixAccept_inv fp (cum + cnt)
          (st.hist (unitShortName (units.get ⟨uidx, hlt⟩))) (parseQLines raw)
          ⟨st.allQs, st.ctr, st.hist (unitShortName (units.get ⟨uidx, hlt⟩)), []⟩
          (List.prefix_refl _) (by simp)
        have hh' : ∀ nm, h0 nm <+:
            (updateH st.hist (unitShortName (units.get ⟨uidx, hlt⟩))
              (sixAccept fp (cum + cnt) (parseQLines raw)
                ⟨st.allQs, st.ctr, st.hist (unitShortName (units.get ⟨uidx, hlt⟩)), []⟩).uh) nm := by
          intro nm
          by_cases hnm : nm = unitShortName (units.get ⟨uidx, hlt⟩)
          · subst hnm
            simp only [updateH, if_pos rfl]
            exact (hh _).trans hacc.1
          · simp only [updateH, if_neg hnm]
            exact hh nm
        have ha' : ∀ p ∈ st.accepted ++
            ((sixAccept fp (cum + cnt) (parseQLines raw)
              ⟨st.allQs, st.ctr, st.hist (unitShortName (units.get ⟨uidx, hlt⟩)), []⟩).newHs).map
              (fun g => (unitShortName (units.get ⟨uidx, hlt⟩), g)), p.2 ∉ h0 p.1 := by
          intro p hp
          rcases List.mem_append.mp hp with hp | hp
          · exact ha p hp
          · obtain ⟨g, hg, hpg⟩ := List.mem_map.mp hp
            rw [← hpg]
            intro hmem0
            exact hacc.2 g hg ((hh _).subset hmem0)
        have hstep : sixFoldUnits fp units api ((uidx, cnt) :: rest) cum st
            = sixFoldUnits fp units api rest (cum + cnt)
                ⟨(sixAccept fp (cum + cnt) (parseQLines raw)
                    ⟨st.allQs, st.ctr, st.hist (unitShortName (units.get ⟨uidx, hlt⟩)), []⟩).allQs,
                  (sixAccept fp (cum + cnt) (parseQLines raw)
                    ⟨st.allQs, st.ctr, st.hist (unitShortName (units.get ⟨uidx, hlt⟩)), []⟩).ctr,
                  updateH st.hist (unitShortName (units.get ⟨uidx, hlt⟩))
                    (sixAccept fp (cum + cnt) (parseQLines raw)
                      ⟨st.allQs, st.ctr, st.hist (unitShortName (units.get ⟨uidx, hlt⟩)), []⟩).uh,
                  st.accepted ++
                    ((sixAccept fp (cum + cnt) (parseQLines raw)
                      ⟨st.allQs, st.ctr, st.hist (unitShortName (units.get ⟨uidx, hlt⟩)), []⟩).newHs).map
                      (fun g => (unitShortName (units.get ⟨uidx, hlt⟩), g))⟩ := by
          simp [sixFoldUnits, hlt, hapi]
        rw [hstep]
        exact ih (cum + cnt) _ hh' ha'
    · have hstep : sixFoldUnits fp units api ((uidx, cnt) :: rest) cum st
          = sixFoldUnits fp units api rest (cum + cnt) st := by
        simp [sixFoldUnits, hlt]
      rw [hstep]
      exact ih (cum + cnt) st hh ha

theorem twelveFoldUnits_histInv (fp : Str → Str) (api : Nat → Except Str Str) (h0 : Hist) :
    ∀ (us : List Str) (idx : Nat) (st : TierSt),
      (∀ nm, h0 nm <+: st.hist nm) → (∀ p ∈ st.accepted, p.2 ∉ h0 p.1) →
      ((∀ nm, h0 nm <+: (twelveFoldUnits fp api us idx st).1.hist nm)
        ∧ ∀ p ∈ (twelveFoldUnits fp api us idx st).1.accepted, p.2 ∉ h0 p.1) := by
  intro us
  induction us with
  | nil => intro idx st hh ha; exact ⟨hh, ha⟩
  | cons unit rest ih =>
    intro idx st hh ha
    cases hapi : api idx with
    | error err =>
      have hstep : twelveFoldUnits fp api (unit :: rest) idx st
          = (st, some (twelveWrap (unitShortName unit) err)) := by
        simp [twelveFoldUnits, hapi]
      rw [hstep]
      exact ⟨hh, ha⟩
    | ok raw =>
      have hacc := twelveAccept_inv fp (st.hist (unitShortName unit)) (parseQLines raw)
        ⟨0, st.allQs, st.ctr, st.hist (unitShortName unit), []⟩
        (List.prefix_refl _) (by simp)
      have hh' : ∀ nm, h0 nm <+:
          (updateH st.hist (unitShortName unit)
            (twelveAccept fp (parseQLines raw)
              ⟨0, st.allQs, st.ctr, st.hist (unitShortName unit), []⟩).uh) nm := by
        intro nm
        by_cases hnm : nm = unitShortName unit
        · subst hnm
          simp only [updateH, if_pos rfl]
          exact (hh _).trans hacc.1
        · simp only [updateH, if_neg hnm]
          exact hh nm
      have ha' : ∀ p ∈ st.accepted ++
          ((twelveAccept fp (parseQLines raw)
            ⟨0, st.allQs, st.ctr, st.hist (unitShortName unit), []⟩).newHs).map
            (fun g => (unitShortName unit, g)), p.2 ∉ h0 p.1 := by
        intro p hp
        rcases List.mem_append.mp hp with hp | hp
        · exact ha p hp
        · obtain ⟨g, hg, hpg⟩ := List.mem_map.mp hp
          rw [← hpg]
          intro hmem0
          exact hacc.2 g hg ((hh _).subset hmem0)
      have hstep : twelveFoldUnits fp api (unit :: rest) idx st
          = twelveFoldUnits fp api rest (idx + 1)
              ⟨(twelveAccept fp (parseQLines raw)
                  ⟨0, st.allQs, st.ctr, st.hist (unitShortName unit), []⟩).allQs,
                (twelveAccept fp (parseQLines raw)
                  ⟨0, st.allQs, st.ctr, st.hist (unitShortName unit), []⟩).ctr,
                updateH st.hist (unitShortName unit)
                  (twelveAccept fp (parseQLines raw)
                    ⟨0, st.allQs, st.ctr, st.hist (unitShortName unit), []⟩).uh,
                st.accepted ++
                  ((twelveAccept fp (parseQLines raw)
                    ⟨0, st.allQs, st.ctr, st.hist (unitShortName unit), []⟩).newHs).map
                    (fun g => (unitShortName unit, g))⟩ := by
        simp [twelveFoldUnits, hapi]
      rw [hstep]
      exact ih (idx + 1) _ hh' ha'

theorem sixCall_inv (fp : Str → Str) (h : Hist) (inp : List Str × (Nat → Except Str Str)) :
    (∀ nm, h nm <+: (sixCall fp h inp).1 nm)
    ∧ (∀ p ∈ (sixCall fp h inp).2, p.2 ∉ h p.1) := by
  obtain ⟨units, api⟩ := inp
  have hinv := sixFoldUnits_histInv fp units api h sixDistribution 0 ⟨[], 11, h, []⟩
    (fun nm => List.prefix_refl _) (by simp)
  rcases hfold : sixFoldUnits fp units api sixDistribution 0 ⟨[], 11, h, []⟩ with ⟨st, e?⟩
  rw [hfold] at hinv
  cases e? with
  | some e =>
    constructor
    · intro nm
      have hh : (sixCall fp h (units, api)).1 = st.hist := by
        simp [sixCall, sixMarkRecords, hfold]
      rw [hh]
      exact hinv.1 nm
    · intro p hp
      have hh : (sixCall fp h (units, api)).2 = st.accepted := by
        simp [sixCall, sixMarkRecords, hfold]
      rw [hh] at hp
      exact hinv.2 p hp
  | none =>
    constructor
    · intro nm
      have hh : (sixCall fp h (units, api)).1 = st.hist := by
        simp [sixCall, sixMarkRecords, hfold]
      rw [hh]
      exact hinv.1 nm
    · intro p hp
      have hh : (sixCall fp h (units, api)).2 = st.accepted := by
        simp [sixCall, sixMarkRecords, hfold]
      rw [hh] at hp
      exact hinv.2 p hp

theorem twelveCall_inv (fp : Str → Str) (h : Hist) (inp : List Str × (Nat → Except Str Str)) :
    (∀ nm, h nm <+: (twelveCall fp h inp).1 nm)
    ∧ (∀ p ∈ (twelveCall fp h inp).2, p.2 ∉ h p.1) := by
  obtain ⟨units, api⟩ := inp
  have hinv := twelveFoldUnits_histInv fp api h units 0 ⟨[], 19, h, []⟩
    (fun nm => List.prefix_refl _) (by simp)
  rcases hfold : twelveFoldUnits fp api units 0 ⟨[], 19, h, []⟩ with ⟨st, e?⟩
  rw [hfold] at hinv
  cases e? with
  | some e =>
    constructor
    · intro nm
      have hh : (twelveCall fp h (units, api)).1 = st.hist := by
        simp [twelveCall, twelveMarkRecords, hfold]
      rw [hh]
      exact hinv.1 nm
    · intro p hp
      have hh : (twelveCall fp h (units, api)).2 = st.accepted := by
        simp [twelveCall, twelveMarkRecords, hfold]
      rw [hh] at hp
      exact hinv.2 p hp
  | none =>
    constructor
    · intro nm
      have hh : (twelveCall fp h (units, api)).1 = st.hist := by
        simp [twelveCall, twelveMarkRecords, hfold]
      rw [hh]
      exact hinv.1 nm
    · intro p hp
      have hh : (twelveCall fp h (units, api)).2 = st.accepted := by
        simp [twelveCall, twelveMarkRecords, hfold]
      rw [hh] at hp
      exact hinv.2 p hp

theorem runCalls_count_zero {ι : Type} (call : Hist → ι → Hist × List (Str × Str)) (nm g : Str)
    (mono : ∀ (h : Hist) (i : ι) (nmx : Str), h nmx <+: (call h i).1 nmx)
    (fresh : ∀ (h : Hist) (i : ι) (p : Str × Str), p ∈ (call h i).2 → p.2 ∉ h p.1) :
    ∀ (cs : List ι) (h0 : Hist), g ∈ h0 nm → (runCalls call h0 cs).2.count (nm, g) = 0 := by
  intro cs
  induction cs with
  | nil => intro h0 _; simp [runCalls]
  | cons i is ih =>
    intro h0 hg
    have hzero1 : ((call h0 i).2).count (nm, g) = 0 := by
      rw [List.count_eq_zero]
      intro hin
      exact fresh h0 i (nm, g) hin hg
    have hg' : g ∈ (call h0 i).1 nm := (mono h0 i nm).subset hg
    have hzero2 := ih ((call h0 i).1) hg'
    simp [runCalls, List.count_append, hzero1, hzero2]

/-! ## Claim C3 -/

/-- C3: for every tier, a fingerprint already present in a unit's history
list when a sequence of calls starts is never accepted again for that unit
— it appears in no call's accepted pairs (and hence is never re-added to
history or emitted in output) across the whole sequence, because each
acceptance tests membership in the unit's history list and that list only
ever grows in place. -/
theorem c3_history_never_reaccepted (fp : Str → Str) (h0 : Hist) (nm g : Str)
    (cs1 : List (Str × Nat × Nat × Except Str Str))
    (cs6 cs12 : List (List Str × (Nat → Except Str Str)))
    (hmem : g ∈ h0 nm) :
    (runCalls (oneMarkCall fp) h0 cs1).2.count (nm, g) = 0
    ∧ (runCalls (sixCall fp) h0 cs6).2.count (nm, g) = 0
    ∧ (runCalls (twelveCall fp) h0 cs12).2.count (nm, g) = 0 := by
  refine ⟨?_, ?_, ?_⟩
  · exact runCalls_count_zero (oneMarkCall fp) nm g
      (fun h i nmx => (oneCall_inv fp h i).1 nmx)
      (fun h i p hp => (oneCall_inv fp h i).2 p hp) cs1 h0 hmem
  · exact runCalls_count_zero (sixCall fp) nm g
      (fun h i nmx => (sixCall_inv fp h i).1 nmx)
      (fun h i p hp => (sixCall_inv fp h i).2 p hp) cs6 h0 hmem
  · exact runCalls_count_zero (twelveCall fp) nm g
      (fun h i nmx => (twelveCall_inv fp h i).1 nmx)
      (fun h i p hp => (twelveCall_inv fp h i).2 p hp) cs12 h0 hmem

/-- History store for the C3 witness: unit `U1` has already seen the
fingerprint of `"Q1. Dup?"`. -/
def c3h0 : Hist := updateH emptyH ("U1".data) [("q1. dup?".data)]

/-- One-mark call sequence for the C3 witness: one call whose only
candidate is the historical duplicate. -/
def c3cs1 : List (Str × Nat × Nat × Except Str Str) :=
  [(("U1: a".data), 1, 1, Except.ok ("Q1. Dup?".data))]

/-- Six-mark call sequence for the C3 witness. -/
def c3cs6 : List (List Str × (Nat → Except Str Str)) :=
  [([("U1: a".data)], fun _ => Except.ok ("Q1. Dup?".data))]

/-- Twelve-mark call sequence for the C3 witness. -/
def c3cs12 : List (List Str × (Nat → Except Str Str)) :=
  [([("U1: a".data)], fun _ => Except.ok ("Q1. Dup?".data))]

/-- C3 witness: concrete runs of all three tiers against a store already
holding the candidate's fingerprint; the fingerprint is accepted nowhere. -/
theorem c3_witness :
    (("q1. dup?".data) ∈ c3h0 ("U1".data))
    ∧ (runCalls (oneMarkCall (fun s => s)) c3h0 c3cs1).2.count
        (("U1".data), ("q1. dup?".data)) = 0
    ∧ (runCalls (sixCall (fun s => s)) c3h0 c3cs6).2.count
        (("U1".data), ("q1. dup?".data)) = 0
    ∧ (runCalls (twelveCall (fun s => s)) c3h0 c3cs12).2.count
        (("U1".data), ("q1. dup?".data)) = 0 := by
  have hm : ("q1. dup?".data) ∈ c3h0 ("U1".data) := by decide
  have hc := c3_history_never_reaccepted (fun s => s) c3h0 ("U1".data) ("q1. dup?".data)
    c3cs1 c3cs6 c3cs12 hm
  exact ⟨hm, hc.1, hc.2.1, hc.2.2⟩
